import Mathlib

/-!
Shallow embedding of the React Native Shadow Tree Differentiator
(`src/ReactCommon/react/renderer/mounting/Differentiator.cpp` and
`src/ReactCommon/fabric/mounting/ShadowViewMutation.cpp`) together with
proofs about the embedded definitions.

The embedding follows the C++ source line by line:
* `TinyMap` models the flat logical-erasure map (tag 0 is the erased
  sentinel), with iterators represented as absolute indices into the
  backing vector.
* `ReparentingMetadata` models the reparenting side table.
* `sliceChildShadowNodeViewPairs` models the flattener (the non-Android
  build is modelled, so `Hidden` nodes are skipped).
* `calcKernel` models one activation of the recursive
  `calculateShadowViewMutations`, exposing the seven internal mutation
  buckets; the C++ recursion is well-founded on tree height, which the
  embedding realises with a fuel parameter that the public entry point
  instantiates with a sufficient bound.
-/

namespace Differ

/-- A shadow-node family tag.  Non-zero for real nodes; `0` is the
TinyMap erased sentinel. -/
abbrev Tag := Int

/-- A 2-d point, used for layout origins (`Point` in the source). -/
structure Point where
  x : Int
  y : Int
deriving DecidableEq, Repr

/-- Layout metrics carried by a shadow node: the frame origin and size.
Only the pieces the differentiator reads are modelled. -/
structure LayoutMetrics where
  originX : Int
  originY : Int
  width : Int
  height : Int
deriving DecidableEq, Repr

/-- The `EmptyLayoutMetrics` sentinel meaning "no layout applied". -/
def EmptyLayoutMetrics : LayoutMetrics := ⟨-1, -1, -1, -1⟩

/-- Trait bits of a shadow node (the subset the differentiator reads). -/
structure Traits where
  formsView : Bool
  formsStackingContext : Bool
  hidden : Bool
deriving DecidableEq, Repr

mutual

/-- An immutable shadow node: tag, Z-order hint, traits, an opaque
payload standing for component name / props / event emitter / state,
layout metrics and children.  The shared, immutable child list is a
mutually inductive list so that the tree-walking functions are
structurally recursive. -/
inductive ShadowNode where
  | mk (tag : Tag) (orderIndex : Int) (traits : Traits) (props : Nat)
      (layoutMetrics : LayoutMetrics) (children : ShadowNodeList)

inductive ShadowNodeList where
  | nil
  | cons (head : ShadowNode) (tail : ShadowNodeList)

end

/-- Builds a child list from an ordinary list (used by the concrete
fixtures). -/
def ShadowNodeList.ofList : List ShadowNode → ShadowNodeList
  | [] => .nil
  | c :: rest => .cons c (ShadowNodeList.ofList rest)

def ShadowNode.tag : ShadowNode → Tag
  | .mk t _ _ _ _ _ => t

def ShadowNode.orderIndex : ShadowNode → Int
  | .mk _ oi _ _ _ _ => oi

def ShadowNode.traits : ShadowNode → Traits
  | .mk _ _ tr _ _ _ => tr

def ShadowNode.props : ShadowNode → Nat
  | .mk _ _ _ pr _ _ => pr

def ShadowNode.layoutMetrics : ShadowNode → LayoutMetrics
  | .mk _ _ _ _ lm _ => lm

def ShadowNode.children : ShadowNode → ShadowNodeList
  | .mk _ _ _ _ _ ch => ch

/-- The flattened value-type projection of a shadow node
(`ShadowView(node)` in the source).  Equality compares all fields. -/
structure ShadowView where
  tag : Tag
  props : Nat
  layoutMetrics : LayoutMetrics
deriving DecidableEq, Repr

/-- `ShadowView{}`: the default-constructed "no parent" sentinel. -/
def defaultShadowView : ShadowView := ⟨0, 0, EmptyLayoutMetrics⟩

/-- The projection `ShadowView(ShadowNode const &)`. -/
def shadowViewOf (n : ShadowNode) : ShadowView := ⟨n.tag, n.props, n.layoutMetrics⟩

/-- `ShadowViewNodePair`: the view projection plus the node for
recursion. -/
structure ShadowViewNodePair where
  shadowView : ShadowView
  shadowNode : ShadowNode

/-! ## TinyMap -/

/-- The `TinyMap` of the source: a flat vector of `(tag, value)` pairs
with logical erasure (tag zeroed) and amortised physical compaction.
Iterators are modelled as absolute indices into `vector`.  The counters
are naturals, so the `0 ≤` halves of the source's signed-int invariants
hold by construction. -/
structure TinyMap (V : Type) where
  vector : List (Tag × V)
  numErased : Nat
  erasedAtFront : Nat
deriving Repr, DecidableEq

namespace TinyMap

variable {V : Type}

/-- The empty map. -/
def empty : TinyMap V := ⟨[], 0, 0⟩

/-- `cleanVector(forceClean)`: remove erased elements from the backing
vector when warranted; translation of the early-return condition and the
clear/remove_if split of the source. -/
def cleanVector (m : TinyMap V) (forceClean : Bool) : TinyMap V :=
  if (m.numErased < m.vector.length / 2 ∧ forceClean = false) ∨
      m.vector.length = 0 ∨ m.numErased = 0 ∨ m.numErased = m.erasedAtFront then
    m
  else if m.numErased = m.vector.length then
    ⟨[], 0, 0⟩
  else
    ⟨m.vector.filter (fun p => p.1 ≠ 0), 0, 0⟩

/-- `insert(pair)`: append without uniqueness check.  The source asserts
`pair.first != 0`; callers must respect that precondition. -/
def insert (m : TinyMap V) (key : Tag) (value : V) : TinyMap V :=
  { m with vector := m.vector ++ [(key, value)] }

/-- `erase(iterator)`: zero the entry's tag; bump the erased counters.
`i` is the absolute index of the (live) entry being erased.  An
out-of-range index has no counterpart in the source (the iterator would
be invalid) and leaves the map unchanged. -/
def eraseIdx (m : TinyMap V) (i : Nat) : TinyMap V :=
  match m.vector.get? i with
  | none => m
  | some p =>
      { vector := m.vector.set i (0, p.2)
        numErased := m.numErased + 1
        erasedAtFront := if i = m.erasedAtFront then m.erasedAtFront + 1 else m.erasedAtFront }

/-- `find(key)`: clean, then scan live entries from `erasedAtFront` on.
Returns the cleaned map together with the absolute index of the match,
if any. -/
def findIdx (m : TinyMap V) (key : Tag) : TinyMap V × Option Nat :=
  let c := m.cleanVector false
  (c, ((c.vector.drop c.erasedAtFront).findIdx? (fun p => p.1 = key)).map
        (fun i => c.erasedAtFront + i))

/-- The map state after `begin()` ran its forced clean. -/
def beginState (m : TinyMap V) : TinyMap V :=
  m.cleanVector (decide (m.erasedAtFront ≠ m.numErased))

/-- The entries visited by a `begin()`/`end()` iteration: everything
from `erasedAtFront` on, in the post-`begin()` state. -/
def iterList (m : TinyMap V) : List (Tag × V) :=
  let c := m.beginState
  c.vector.drop c.erasedAtFront

/-- The invariant of claim C10: the erased-at-front counter never exceeds
the erased counter, which never exceeds the backing size; the zero-keyed
entries are counted exactly by `numErased`; and the first
`erasedAtFront` entries are all zero-keyed. -/
def Inv (m : TinyMap V) : Prop :=
  m.erasedAtFront ≤ m.numErased ∧
  m.numErased ≤ m.vector.length ∧
  (m.vector.countP (fun p => p.1 = 0)) = m.numErased ∧
  ∀ p ∈ m.vector.take m.erasedAtFront, p.1 = 0

instance (m : TinyMap V) : Decidable m.Inv := by
  unfold Inv
  infer_instance

end TinyMap

/-! ## Mutations -/

/-- The five mutation kinds of `ShadowViewMutation::Type`.  In the
source these are bit values (`Create = 1, Delete = 2, Insert = 4,
Remove = 8, Update = 16`); the bitset combinations are modelled by
`OpSet` below. -/
inductive MutationType where
  | create
  | delete
  | insert
  | remove
  | update
deriving DecidableEq, Repr

/-- Modelled from the spec: the field order of the `ShadowViewMutation`
record, `{ type, parentShadowView, oldChildShadowView,
newChildShadowView, index }` (spec §3); the declaring header
`ShadowViewMutation.h` is not under `src/`.  The constructors in
`ShadowViewMutation.cpp` build this record with positional aggregate
initializers against this field order. -/
structure ShadowViewMutation where
  mutationType : MutationType
  parentShadowView : ShadowView
  oldChildShadowView : ShadowView
  newChildShadowView : ShadowView
  index : Int
deriving DecidableEq, Repr

namespace ShadowViewMutation

/-- `ShadowViewMutation::CreateMutation`.  Positional translation of the
C++ aggregate initializer `{Create, {}, shadowView, {}, -1}`: the third
position is `oldChildShadowView`, so the created view is stored there
and `newChildShadowView` stays default — even though the inline comments
of the source label the third position `.newChildShadowView`. -/
def CreateMutation (shadowView : ShadowView) : ShadowViewMutation :=
  ⟨.create, defaultShadowView, shadowView, defaultShadowView, -1⟩

/-- `ShadowViewMutation::DeleteMutation`: `{Delete, {}, shadowView, {}, -1}`. -/
def DeleteMutation (shadowView : ShadowView) : ShadowViewMutation :=
  ⟨.delete, defaultShadowView, shadowView, defaultShadowView, -1⟩

/-- `ShadowViewMutation::InsertMutation`:
`{Insert, parent, {}, childShadowView, index}`. -/
def InsertMutation (parentShadowView childShadowView : ShadowView) (index : Int) :
    ShadowViewMutation :=
  ⟨.insert, parentShadowView, defaultShadowView, childShadowView, index⟩

/-- `ShadowViewMutation::RemoveMutation`:
`{Remove, parent, childShadowView, {}, index}`. -/
def RemoveMutation (parentShadowView childShadowView : ShadowView) (index : Int) :
    ShadowViewMutation :=
  ⟨.remove, parentShadowView, childShadowView, defaultShadowView, index⟩

/-- `ShadowViewMutation::UpdateMutation`:
`{Update, parent, oldChild, newChild, index}`. -/
def UpdateMutation (parentShadowView oldChildShadowView newChildShadowView : ShadowView)
    (index : Int) : ShadowViewMutation :=
  ⟨.update, parentShadowView, oldChildShadowView, newChildShadowView, index⟩

end ShadowViewMutation

/-! ## Reparenting metadata -/

/-- A set of mutation-type bits, modelling the `int` bitsets
(`opExists`, `shouldEraseOp`) of `OperationsOnTag`; the only bits the
source ever stores are the five `ShadowViewMutation::Type` values. -/
structure OpSet where
  hasCreate : Bool
  hasDelete : Bool
  hasInsert : Bool
  hasRemove : Bool
  hasUpdate : Bool
deriving DecidableEq, Repr

namespace OpSet

/-- The bitset `0`. -/
def empty : OpSet := ⟨false, false, false, false, false⟩

/-- `s == 0`. -/
def isEmpty (s : OpSet) : Bool :=
  !(s.hasCreate || s.hasDelete || s.hasInsert || s.hasRemove || s.hasUpdate)

/-- `s & type` as a Boolean test. -/
def test (s : OpSet) : MutationType → Bool
  | .create => s.hasCreate
  | .delete => s.hasDelete
  | .insert => s.hasInsert
  | .remove => s.hasRemove
  | .update => s.hasUpdate

/-- `s |= type`. -/
def set (s : OpSet) : MutationType → OpSet
  | .create => { s with hasCreate := true }
  | .delete => { s with hasDelete := true }
  | .insert => { s with hasInsert := true }
  | .remove => { s with hasRemove := true }
  | .update => { s with hasUpdate := true }

/-- `s &= ~type`. -/
def clear (s : OpSet) : MutationType → OpSet
  | .create => { s with hasCreate := false }
  | .delete => { s with hasDelete := false }
  | .insert => { s with hasInsert := false }
  | .remove => { s with hasRemove := false }
  | .update => { s with hasUpdate := false }

end OpSet

/-- Per-tag record of the reparenting side table (`OperationsOnTag`).
`oldNode`/`newNode` are raw pointers in the source, value-initialised to
null by `OperationsOnTag{}`; they are modelled as options. -/
structure OperationsOnTag where
  shouldEraseOp : OpSet
  opExists : OpSet
  removeInsertIndex : Int
  parentTag : Tag
  oldNode : Option ShadowNode
  newNode : Option ShadowNode

/-- `OperationsOnTag{}`: default member values of the source. -/
def OperationsOnTag.init : OperationsOnTag :=
  ⟨OpSet.empty, OpSet.empty, -1, -1, none, none⟩

/-- Association-list lookup standing for `std::map::find`. -/
def lookupOps : List (Tag × OperationsOnTag) → Tag → Option OperationsOnTag
  | [], _ => none
  | (k, v) :: rest, tag => if k = tag then some v else lookupOps rest tag

/-- `map[tag] = ops`: replace an existing entry or append a fresh one.
The source's `std::map` keeps entries sorted by tag, but the only
whole-map iteration (`removeUselessRecords`) is a filter, so entry order
is unobservable and insertion order is an adequate model. -/
def setOps : List (Tag × OperationsOnTag) → Tag → OperationsOnTag → List (Tag × OperationsOnTag)
  | [], tag, ops => [(tag, ops)]
  | (k, v) :: rest, tag, ops =>
      if k = tag then (k, ops) :: rest else (k, v) :: setOps rest tag ops

/-- `map.erase(it)` by key. -/
def eraseOps : List (Tag × OperationsOnTag) → Tag → List (Tag × OperationsOnTag)
  | [], _ => []
  | (k, v) :: rest, tag => if k = tag then rest else (k, v) :: eraseOps rest tag

/-- The reparenting side channel (`ReparentingMetadata`). -/
structure ReparentingMetadata where
  enabled : Bool
  reparentingOperations : Nat
  tagsToOperations : List (Tag × OperationsOnTag)

namespace ReparentingMetadata

/-- `ReparentingMetadata(enabled)`. -/
def mkMeta (enabled : Bool) : ReparentingMetadata := ⟨enabled, 0, []⟩

/-- `shouldRemoveDeleteUpdate(parentTag, shadowNode, index)`:
returns the updated metadata and the triple
`(shouldRemove, shouldDelete, newTreeNodeOrNull)`. -/
def shouldRemoveDeleteUpdate (meta : ReparentingMetadata) (parentTag : Tag)
    (shadowNode : ShadowNode) (index : Int) :
    ReparentingMetadata × Bool × Bool × Option ShadowNode :=
  if meta.enabled = false then (meta, true, true, none)
  else
    let tag := shadowNode.tag
    match lookupOps meta.tagsToOperations tag with
    | none =>
        let tagOperations : OperationsOnTag :=
          { OperationsOnTag.init with
            removeInsertIndex := index
            parentTag := parentTag
            opExists := (OpSet.empty.set .remove).set .delete
            oldNode := some shadowNode }
        ({ meta with tagsToOperations := setOps meta.tagsToOperations tag tagOperations },
          true, true, none)
    | some ops =>
        let shouldRemove :=
          !(ops.opExists.test .insert && ops.removeInsertIndex == index &&
            ops.parentTag == parentTag)
        let erase1 := if ops.opExists.test .create then ops.shouldEraseOp.set .create
          else ops.shouldEraseOp
        let erase2 := if shouldRemove = false && ops.opExists.test .insert then erase1.set .insert
          else erase1
        let ops' := { ops with shouldEraseOp := erase2 }
        let counter := if erase2.isEmpty = false then meta.reparentingOperations + 1
          else meta.reparentingOperations
        ({ meta with
            tagsToOperations := setOps meta.tagsToOperations tag ops'
            reparentingOperations := counter },
          shouldRemove, false, ops.newNode)

/-- `shouldCreateInsertUpdate(parentTag, shadowNode, index)`:
returns the updated metadata and the triple
`(shouldInsert, shouldCreate, oldTreeNodeOrNull)`.  Note that the
fresh-tag path of the source sets `removeInsertIndex`, `opExists` and
`newNode` but — unlike `shouldRemoveDeleteUpdate` — not `parentTag`. -/
def shouldCreateInsertUpdate (meta : ReparentingMetadata) (parentTag : Tag)
    (shadowNode : ShadowNode) (index : Int) :
    ReparentingMetadata × Bool × Bool × Option ShadowNode :=
  if meta.enabled = false then (meta, true, true, none)
  else
    let tag := shadowNode.tag
    match lookupOps meta.tagsToOperations tag with
    | none =>
        let tagOperations : OperationsOnTag :=
          { OperationsOnTag.init with
            removeInsertIndex := index
            opExists := (OpSet.empty.set .create).set .insert
            newNode := some shadowNode }
        ({ meta with tagsToOperations := setOps meta.tagsToOperations tag tagOperations },
          true, true, none)
    | some ops =>
        let shouldInsert :=
          !(ops.opExists.test .remove && ops.removeInsertIndex == index &&
            ops.parentTag == parentTag)
        let erase1 := if ops.opExists.test .delete then ops.shouldEraseOp.set .delete
          else ops.shouldEraseOp
        let erase2 := if shouldInsert = false && ops.opExists.test .remove then erase1.set .remove
          else erase1
        let ops' := { ops with shouldEraseOp := erase2 }
        let counter := if erase2.isEmpty = false then meta.reparentingOperations + 1
          else meta.reparentingOperations
        ({ meta with
            tagsToOperations := setOps meta.tagsToOperations tag ops'
            reparentingOperations := counter },
          shouldInsert, false, ops.oldNode)

/-- `shouldCreateUpdate(shadowNode)`: returns updated metadata and
`(shouldCreate, updateNodeOrNull)`.  The source asserts the tag is
present; the algorithm only calls this on tags that previously went
through `markInserted`, so the `none` branch is unreachable and modelled
as the assertion-free fallthrough `(true, null)`. -/
def shouldCreateUpdate (meta : ReparentingMetadata) (shadowNode : ShadowNode) :
    ReparentingMetadata × Bool × Option ShadowNode :=
  if meta.enabled = false then (meta, true, none)
  else
    let tag := shadowNode.tag
    match lookupOps meta.tagsToOperations tag with
    | none => (meta, true, none)
    | some ops =>
        if ops.opExists.test .delete then
          let ops' := { ops with
            shouldEraseOp := ops.shouldEraseOp.set .delete
            newNode := some shadowNode }
          ({ meta with
              tagsToOperations := setOps meta.tagsToOperations tag ops'
              reparentingOperations := meta.reparentingOperations + 1 },
            false, ops.oldNode)
        else
          let ops' := { ops with opExists := ops.opExists.set .create }
          ({ meta with tagsToOperations := setOps meta.tagsToOperations tag ops' },
            true, none)

/-- `markInserted(parentTag, shadowNode, index)`.  Faithful to the
source: on a fresh tag the record is stored exactly as constructed
(`removeInsertIndex` and `parentTag` populated), while the
`it->second.opExists |= Insert` write goes through the failed lookup's
`end()` iterator — undefined behaviour in C++ — and never reaches the
stored record; it is modelled as a lost write, so the stored record's
`opExists` stays empty. -/
def markInserted (meta : ReparentingMetadata) (parentTag : Tag)
    (shadowNode : ShadowNode) (index : Int) : ReparentingMetadata :=
  if meta.enabled = false then meta
  else
    let tag := shadowNode.tag
    match lookupOps meta.tagsToOperations tag with
    | none =>
        let tagOperations : OperationsOnTag :=
          { OperationsOnTag.init with
            removeInsertIndex := index
            parentTag := parentTag }
        { meta with tagsToOperations := setOps meta.tagsToOperations tag tagOperations }
    | some ops =>
        { meta with
            tagsToOperations :=
              setOps meta.tagsToOperations tag
                { ops with opExists := ops.opExists.set .insert } }

/-- `removeUselessRecords()`: drop entries whose `shouldEraseOp` is 0. -/
def removeUselessRecords (meta : ReparentingMetadata) : ReparentingMetadata :=
  if meta.enabled = false then meta
  else
    { meta with
        tagsToOperations :=
          meta.tagsToOperations.filter (fun p => p.2.shouldEraseOp.isEmpty = false) }

end ReparentingMetadata

/-! ## Flattener -/

/-- `sliceChildShadowNodeViewPairsRecursively(pairList, layoutOffset,
shadowNode)`, written as a function of the children list.  The
non-Android build is modelled, so `Hidden` children are skipped with
their whole subtree. -/
def sliceChildShadowNodeViewPairsRecursively :
    Point → ShadowNodeList → List ShadowViewNodePair
  | _, .nil => []
  | layoutOffset, .cons (ShadowNode.mk t oi tr pr lm ch) rest =>
      let childShadowNode := ShadowNode.mk t oi tr pr lm ch
      let restPairs := sliceChildShadowNodeViewPairsRecursively layoutOffset rest
      if tr.hidden then restPairs
      else
        let shadowView0 := shadowViewOf childShadowNode
        let hasMetrics := shadowView0.layoutMetrics ≠ EmptyLayoutMetrics
        let origin : Point :=
          if hasMetrics then
            ⟨layoutOffset.x + lm.originX, layoutOffset.y + lm.originY⟩
          else layoutOffset
        let shadowView :=
          if hasMetrics then
            { shadowView0 with
                layoutMetrics :=
                  { shadowView0.layoutMetrics with
                      originX := shadowView0.layoutMetrics.originX + layoutOffset.x
                      originY := shadowView0.layoutMetrics.originY + layoutOffset.y } }
          else shadowView0
        if tr.formsStackingContext then
          ⟨shadowView, childShadowNode⟩ :: restPairs
        else
          (if tr.formsView then [⟨shadowView, childShadowNode⟩] else []) ++
            sliceChildShadowNodeViewPairsRecursively origin ch ++ restPairs

/-- `sliceChildShadowNodeViewPairs(shadowNode)`: empty for a
`FormsView`-but-not-`FormsStackingContext` root, otherwise the recursive
flattening of the children from offset (0, 0). -/
def sliceChildShadowNodeViewPairs (shadowNode : ShadowNode) : List ShadowViewNodePair :=
  if shadowNode.traits.formsStackingContext = false ∧ shadowNode.traits.formsView = true then
    []
  else
    sliceChildShadowNodeViewPairsRecursively ⟨0, 0⟩ shadowNode.children

/-! ## Differ -/

/-- `shouldFirstPairComesBeforeSecondOne`, relaxed to the ≤ form a stable
sort consumes: `std::stable_sort` with the strict `<` comparator keeps
equal keys in source order, which is exactly insertion sort by `≤`. -/
def pairOrderLe (lhs rhs : ShadowViewNodePair) : Prop :=
  lhs.shadowNode.orderIndex ≤ rhs.shadowNode.orderIndex

instance : DecidableRel pairOrderLe := fun lhs rhs =>
  Int.decLe lhs.shadowNode.orderIndex rhs.shadowNode.orderIndex

/-- `reorderInPlaceIfNeeded(pairs)`: stable-sort by `orderIndex` unless
the list is short or every `orderIndex` is zero. -/
def reorderInPlaceIfNeeded (pairs : List ShadowViewNodePair) : List ShadowViewNodePair :=
  if pairs.length < 2 then pairs
  else if pairs.all (fun p => p.shadowNode.orderIndex == 0) then pairs
  else pairs.insertionSort pairOrderLe

/-- The seven per-activation mutation buckets of the recursive differ. -/
structure Buckets where
  createM : List ShadowViewMutation
  deleteM : List ShadowViewMutation
  insertM : List ShadowViewMutation
  removeM : List ShadowViewMutation
  updateM : List ShadowViewMutation
  downwardM : List ShadowViewMutation
  destructiveM : List ShadowViewMutation

/-- All buckets empty. -/
def Buckets.empty : Buckets := ⟨[], [], [], [], [], [], []⟩

/-- The §4.3-G concatenation: destructive-downward, update, remove (in
reverse), delete, create, downward, insert. -/
def Buckets.concat (b : Buckets) : List ShadowViewMutation :=
  b.destructiveM ++ b.updateM ++ b.removeM.reverse ++ b.deleteM ++
    b.createM ++ b.downwardM ++ b.insertM

/-- Metadata plus buckets: the state threaded through one activation of
the recursive differ. -/
structure DiffState where
  meta : ReparentingMetadata
  buckets : Buckets

/-- The signature of a recursive invocation of the differ as seen from
inside an activation: it takes the metadata, the parent view and the two
child-pair lists, and returns the updated metadata together with the
mutation list it would append to the caller's list. -/
abbrev RecFn :=
  ReparentingMetadata → ShadowView → List ShadowViewNodePair → List ShadowViewNodePair →
    ReparentingMetadata × List ShadowViewMutation

/-- A placeholder pair used only for the (unreachable on valid inputs)
out-of-range list accesses of the stage-E walk. -/
def dummyPair : ShadowViewNodePair :=
  ⟨defaultShadowView, ShadowNode.mk 0 0 ⟨false, false, false⟩ 0 EmptyLayoutMetrics .nil⟩

/-- Stage 1 of an activation: the lockstep prefix walk (`Differ Branch
1.x`).  Emits an `Update` per index where the views differ, recurses
into the grandchildren (into `downwardM` when the new grandchild list is
non-empty, `destructiveM` otherwise), and stops at the first tag
mismatch.  Returns the state, the stop index and both list remainders. -/
def stage1 (recFn : RecFn) (parentShadowView : ShadowView) :
    List ShadowViewNodePair → List ShadowViewNodePair → Nat → DiffState →
    DiffState × Nat × List ShadowViewNodePair × List ShadowViewNodePair
  | [], news, idx, st => (st, idx, [], news)
  | olds, [], idx, st => (st, idx, olds, [])
  | oldChildPair :: olds, newChildPair :: news, idx, st =>
      if oldChildPair.shadowView.tag ≠ newChildPair.shadowView.tag then
        (st, idx, oldChildPair :: olds, newChildPair :: news)
      else
        let b := st.buckets
        let b :=
          if oldChildPair.shadowView ≠ newChildPair.shadowView then
            { b with updateM := b.updateM ++
                [ShadowViewMutation.UpdateMutation parentShadowView
                  oldChildPair.shadowView newChildPair.shadowView (idx : Int)] }
          else b
        let oldGrandChildPairs := sliceChildShadowNodeViewPairs oldChildPair.shadowNode
        let newGrandChildPairs := sliceChildShadowNodeViewPairs newChildPair.shadowNode
        let (meta', sub) :=
          recFn st.meta oldChildPair.shadowView oldGrandChildPairs newGrandChildPairs
        let b :=
          if newGrandChildPairs.length ≠ 0 then
            { b with downwardM := b.downwardM ++ sub }
          else
            { b with destructiveM := b.destructiveM ++ sub }
        stage1 recFn parentShadowView olds news (idx + 1) ⟨meta', b⟩

/-- The delete+remove fast path (`Differ Branch 2`), taken when the new
list is exhausted. -/
def stage2 (recFn : RecFn) (parentShadowView : ShadowView) :
    List ShadowViewNodePair → Nat → DiffState → DiffState
  | [], _, st => st
  | oldChildPair :: olds, idx, st =>
      let (meta1, shouldRemove, shouldDelete, newTreeNode) :=
        st.meta.shouldRemoveDeleteUpdate parentShadowView.tag
          oldChildPair.shadowNode (idx : Int)
      let b := st.buckets
      let b :=
        if shouldDelete then
          { b with deleteM := b.deleteM ++
              [ShadowViewMutation.DeleteMutation oldChildPair.shadowView] }
        else b
      let b :=
        if shouldRemove then
          { b with removeM := b.removeM ++
              [ShadowViewMutation.RemoveMutation parentShadowView
                oldChildPair.shadowView (idx : Int)] }
        else b
      let b :=
        match newTreeNode with
        | some nn =>
            if shadowViewOf nn ≠ oldChildPair.shadowView then
              { b with updateM := b.updateM ++
                  [ShadowViewMutation.UpdateMutation parentShadowView
                    oldChildPair.shadowView (shadowViewOf nn) (-1)] }
            else b
        | none => b
      let (meta2, sub) :=
        recFn meta1 oldChildPair.shadowView
          (sliceChildShadowNodeViewPairs oldChildPair.shadowNode) []
      let b := { b with destructiveM := b.destructiveM ++ sub }
      stage2 recFn parentShadowView olds (idx + 1) ⟨meta2, b⟩

/-- The create+insert fast path (`Differ Branch 3`), taken when the old
list is exhausted. -/
def stage3 (recFn : RecFn) (parentShadowView : ShadowView) :
    List ShadowViewNodePair → Nat → DiffState → DiffState
  | [], _, st => st
  | newChildPair :: news, idx, st =>
      let (meta1, shouldInsert, shouldCreate, oldTreeNode) :=
        st.meta.shouldCreateInsertUpdate parentShadowView.tag
          newChildPair.shadowNode (idx : Int)
      let b := st.buckets
      let b :=
        if shouldInsert then
          { b with insertM := b.insertM ++
              [ShadowViewMutation.InsertMutation parentShadowView
                newChildPair.shadowView (idx : Int)] }
        else b
      let b :=
        if shouldCreate then
          { b with createM := b.createM ++
              [ShadowViewMutation.CreateMutation newChildPair.shadowView] }
        else b
      let b :=
        match oldTreeNode with
        | some oldTn =>
            if shadowViewOf oldTn ≠ newChildPair.shadowView then
              { b with updateM := b.updateM ++
                  [ShadowViewMutation.UpdateMutation parentShadowView
                    (shadowViewOf oldTn) newChildPair.shadowView (-1)] }
            else b
        | none => b
      let (meta2, sub) :=
        recFn meta1 newChildPair.shadowView []
          (sliceChildShadowNodeViewPairs newChildPair.shadowNode)
      let b := { b with downwardM := b.downwardM ++ sub }
      stage3 recFn parentShadowView news (idx + 1) ⟨meta2, b⟩

/-- The interleaved stage-E walk (`Differ Branch 5/6/8/9`): two cursors
over the (reordered) lists plus the `newRemainingPairs` and
`newInsertedPairs` TinyMaps.  `staleIndex` is the value the stale C++
variable `index` holds throughout this loop — the length of the new
child list — which the source passes as the `index` of the Branch 5 and
Branch 6 `Update` mutations.  The loop counter `loopFuel` only bounds
the iteration count; the source's loop advances a cursor every
iteration and, on inputs whose sibling tags are unique, finishes within
`oldSize + newSize` iterations (on other inputs the source reads out of
bounds, which the model replaces by `dummyPair`). -/
def stageE (recFn : RecFn) (parentShadowView : ShadowView)
    (oldChildPairs newChildPairs : List ShadowViewNodePair) (staleIndex : Int) :
    Nat → Nat → Nat → TinyMap ShadowViewNodePair → TinyMap ShadowViewNodePair →
    DiffState → DiffState × TinyMap ShadowViewNodePair
  | 0, _, _, _, inserted, st => (st, inserted)
  | loopFuel + 1, oldIndex, newIndex, remaining, inserted, st =>
    let oldSize := oldChildPairs.length
    let newSize := newChildPairs.length
    if newIndex < newSize ∨ oldIndex < oldSize then
      let newChildPair := newChildPairs.getD newIndex dummyPair
      let oldChildPair := oldChildPairs.getD oldIndex dummyPair
      if newIndex < newSize ∧ oldIndex < oldSize ∧
          newChildPair.shadowView.tag = oldChildPair.shadowView.tag then
        -- Branch 5: matched tags at the cursors.
        let b := st.buckets
        let b :=
          if oldChildPair.shadowView ≠ newChildPair.shadowView then
            { b with updateM := b.updateM ++
                [ShadowViewMutation.UpdateMutation parentShadowView
                  oldChildPair.shadowView newChildPair.shadowView staleIndex] }
          else b
        let (rem1, foundRem) := remaining.findIdx oldChildPair.shadowView.tag
        let rem2 :=
          match foundRem with
          | some i => rem1.eraseIdx i
          | none => rem1
        let oldGrandChildPairs := sliceChildShadowNodeViewPairs oldChildPair.shadowNode
        let newGrandChildPairs := sliceChildShadowNodeViewPairs newChildPair.shadowNode
        let (meta', sub) :=
          recFn st.meta oldChildPair.shadowView oldGrandChildPairs newGrandChildPairs
        let b :=
          if newGrandChildPairs.length ≠ 0 then
            { b with downwardM := b.downwardM ++ sub }
          else
            { b with destructiveM := b.destructiveM ++ sub }
        stageE recFn parentShadowView oldChildPairs newChildPairs staleIndex
          loopFuel (oldIndex + 1) (newIndex + 1) rem2 inserted ⟨meta', b⟩
      else
        if oldIndex < oldSize then
          let (ins1, foundIns) := inserted.findIdx oldChildPair.shadowView.tag
          match foundIns with
          | some i =>
              -- Branch 6: the old tag was already inserted at a new position.
              let b := st.buckets
              let b := { b with removeM := b.removeM ++
                  [ShadowViewMutation.RemoveMutation parentShadowView
                    oldChildPair.shadowView (oldIndex : Int)] }
              let insertedPair := (ins1.vector.getD i (0, dummyPair)).2
              let b :=
                if oldChildPair.shadowView ≠ insertedPair.shadowView then
                  { b with updateM := b.updateM ++
                      [ShadowViewMutation.UpdateMutation parentShadowView
                        oldChildPair.shadowView insertedPair.shadowView staleIndex] }
                else b
              let oldGrandChildPairs := sliceChildShadowNodeViewPairs oldChildPair.shadowNode
              let newGrandChildPairs := sliceChildShadowNodeViewPairs insertedPair.shadowNode
              let (meta', sub) :=
                recFn st.meta oldChildPair.shadowView oldGrandChildPairs newGrandChildPairs
              let b :=
                if newGrandChildPairs.length ≠ 0 then
                  { b with downwardM := b.downwardM ++ sub }
                else
                  { b with destructiveM := b.destructiveM ++ sub }
              let ins2 := ins1.eraseIdx i
              stageE recFn parentShadowView oldChildPairs newChildPairs staleIndex
                loopFuel (oldIndex + 1) newIndex remaining ins2 ⟨meta', b⟩
          | none =>
              let (rem1, foundRem) := remaining.findIdx oldChildPair.shadowView.tag
              match foundRem with
              | none =>
                  -- Branch 8: the old tag does not appear in the new list.
                  let (meta1, shouldRemove, shouldDelete, newTreeNode) :=
                    st.meta.shouldRemoveDeleteUpdate (-1) oldChildPair.shadowNode (-1)
                  let b := st.buckets
                  let b := { b with removeM := b.removeM ++
                      [ShadowViewMutation.RemoveMutation parentShadowView
                        oldChildPair.shadowView (oldIndex : Int)] }
                  let b :=
                    if shouldDelete then
                      { b with deleteM := b.deleteM ++
                          [ShadowViewMutation.DeleteMutation oldChildPair.shadowView] }
                    else b
                  let b :=
                    match newTreeNode with
                    | some nn =>
                        if shadowViewOf nn ≠ oldChildPair.shadowView then
                          { b with updateM := b.updateM ++
                              [ShadowViewMutation.UpdateMutation parentShadowView
                                oldChildPair.shadowView (shadowViewOf nn) (-1)] }
                        else b
                    | none => b
                  let (meta2, sub) :=
                    recFn meta1 oldChildPair.shadowView
                      (sliceChildShadowNodeViewPairs oldChildPair.shadowNode) []
                  let b := { b with destructiveM := b.destructiveM ++ sub }
                  let _ := shouldRemove
                  stageE recFn parentShadowView oldChildPairs newChildPairs staleIndex
                    loopFuel (oldIndex + 1) newIndex rem1 ins1 ⟨meta2, b⟩
              | some _ =>
                  -- Branch 9 (default), reached with maps cleaned by the two finds.
                  let meta1 :=
                    st.meta.markInserted parentShadowView.tag
                      newChildPair.shadowNode (newIndex : Int)
                  let b := { st.buckets with insertM := st.buckets.insertM ++
                      [ShadowViewMutation.InsertMutation parentShadowView
                        newChildPair.shadowView (newIndex : Int)] }
                  let ins2 := ins1.insert newChildPair.shadowView.tag newChildPair
                  stageE recFn parentShadowView oldChildPairs newChildPairs staleIndex
                    loopFuel oldIndex (newIndex + 1) rem1 ins2 ⟨meta1, b⟩
        else
          -- Branch 9 (default) with the old cursor exhausted.
          let meta1 :=
            st.meta.markInserted parentShadowView.tag
              newChildPair.shadowNode (newIndex : Int)
          let b := { st.buckets with insertM := st.buckets.insertM ++
              [ShadowViewMutation.InsertMutation parentShadowView
                newChildPair.shadowView (newIndex : Int)] }
          let ins2 := inserted.insert newChildPair.shadowView.tag newChildPair
          stageE recFn parentShadowView oldChildPairs newChildPairs staleIndex
            loopFuel oldIndex (newIndex + 1) remaining ins2 ⟨meta1, b⟩
    else (st, inserted)

/-- The final create sweep over the surviving `newInsertedPairs` entries
(the loop after the stage-E walk), iterating the TinyMap via `begin()`
and skipping zero-tag holes. -/
def stageF (recFn : RecFn) (parentShadowView : ShadowView) :
    List (Tag × ShadowViewNodePair) → DiffState → DiffState
  | [], st => st
  | (tag, newChildPair) :: rest, st =>
      if tag = 0 then stageF recFn parentShadowView rest st
      else
        let (meta1, shouldCreate, updateNode) :=
          st.meta.shouldCreateUpdate newChildPair.shadowNode
        let b := st.buckets
        let b :=
          if shouldCreate then
            { b with createM := b.createM ++
                [ShadowViewMutation.CreateMutation newChildPair.shadowView] }
          else b
        let b :=
          match updateNode with
          | some un =>
              if shadowViewOf un ≠ newChildPair.shadowView then
                { b with updateM := b.updateM ++
                    [ShadowViewMutation.UpdateMutation parentShadowView
                      (shadowViewOf un) newChildPair.shadowView (-1)] }
              else b
          | none => b
        let (meta2, sub) :=
          recFn meta1 newChildPair.shadowView []
            (sliceChildShadowNodeViewPairs newChildPair.shadowNode)
        let b := { b with downwardM := b.downwardM ++ sub }
        stageF recFn parentShadowView rest ⟨meta2, b⟩

/-- One activation of the recursive
`calculateShadowViewMutations(mutations, reparentingMetadata,
parentShadowView, oldChildPairs, newChildPairs)`, returning the
metadata and the seven buckets (the mutations it appends to the
caller's list are `Buckets.concat` of the result).  The C++ recursion
is well-founded because every recursive call descends strictly in tree
height; `fuel` realises that: every recursive call inside an activation
runs at `fuel - 1`, and the public entry point supplies a bound large
enough that the zero-fuel branch is never reached. -/
def calcBody (recFn : RecFn) (meta : ReparentingMetadata) (parentShadowView : ShadowView)
    (oldChildPairsIn newChildPairsIn : List ShadowViewNodePair) :
    ReparentingMetadata × Buckets :=
  if oldChildPairsIn.isEmpty ∧ newChildPairsIn.isEmpty then (meta, Buckets.empty)
  else
    let oldChildPairs := reorderInPlaceIfNeeded oldChildPairsIn
    let newChildPairs := reorderInPlaceIfNeeded newChildPairsIn
    let s1 := stage1 recFn parentShadowView oldChildPairs newChildPairs 0 ⟨meta, Buckets.empty⟩
    let st1 := s1.1
    let k := s1.2.1
    let oldRest := s1.2.2.1
    let newRest := s1.2.2.2
    let stFinal :=
      if newRest.isEmpty then stage2 recFn parentShadowView oldRest k st1
      else if oldRest.isEmpty then stage3 recFn parentShadowView newRest k st1
      else
        let remaining0 :=
          newRest.foldl (fun m p => m.insert p.shadowView.tag p)
            (TinyMap.empty : TinyMap ShadowViewNodePair)
        let staleIndex : Int := (newChildPairs.length : Int)
        let s2 :=
          stageE recFn parentShadowView oldChildPairs newChildPairs staleIndex
            (oldChildPairs.length + newChildPairs.length + 1) k k remaining0
            (TinyMap.empty : TinyMap ShadowViewNodePair) st1
        stageF recFn parentShadowView s2.2.iterList s2.1
    (stFinal.meta, stFinal.buckets)

def calcKernel : Nat → ReparentingMetadata → ShadowView → List ShadowViewNodePair →
    List ShadowViewNodePair → ReparentingMetadata × Buckets
  | 0, meta, _, _, _ => (meta, Buckets.empty)
  | fuel + 1, meta, parentShadowView, oldChildPairsIn, newChildPairsIn =>
      calcBody
        (fun m p o n =>
          let r := calcKernel fuel m p o n
          (r.1, r.2.concat))
        meta parentShadowView oldChildPairsIn newChildPairsIn

/-- The stateful `std::remove_if` predicate of the final pruning pass,
applied to the mutation list in order: look the mutation's tag up in the
side table (Create/Insert use the new child's tag, the rest the old
child's), drop the mutation when its type bit is marked for erasure,
clear that bit, erase exhausted entries and stop erasing once the
counter reaches zero. -/
def pruneTag (m : ShadowViewMutation) : Tag :=
  if m.mutationType = .insert ∨ m.mutationType = .create then m.newChildShadowView.tag
  else m.oldChildShadowView.tag

/-- The side-table bookkeeping the pruning predicate performs per
visited mutation whose tag is present: clear the type bit, erase the
entry when exhausted and decrement the counter. -/
def pruneStep (meta : ReparentingMetadata) (tag : Tag) (ops : OperationsOnTag)
    (ty : MutationType) : ReparentingMetadata :=
  if (ops.shouldEraseOp.clear ty).isEmpty then
    { meta with
        tagsToOperations := eraseOps meta.tagsToOperations tag
        reparentingOperations := meta.reparentingOperations - 1 }
  else
    { meta with
        tagsToOperations :=
          setOps meta.tagsToOperations tag
            { ops with shouldEraseOp := ops.shouldEraseOp.clear ty } }

def pruneMutations : ReparentingMetadata → List ShadowViewMutation → List ShadowViewMutation
  | _, [] => []
  | meta, m :: rest =>
      if meta.reparentingOperations = 0 then m :: pruneMutations meta rest
      else
        match lookupOps meta.tagsToOperations (pruneTag m) with
        | none => m :: pruneMutations meta rest
        | some ops =>
            if ops.shouldEraseOp.test m.mutationType then
              pruneMutations (pruneStep meta (pruneTag m) ops m.mutationType) rest
            else m :: pruneMutations (pruneStep meta (pruneTag m) ops m.mutationType) rest

/-- A fuel bound sufficient for the recursion depth of the differ: the
structural size of a node strictly bounds the height of its tree, and
every node reachable by the flattener of a child is structurally
smaller. -/
def ShadowNode.fuelList : ShadowNodeList → Nat
  | .nil => 0
  | .cons (ShadowNode.mk _ _ _ _ _ ch) rest =>
      1 + ShadowNode.fuelList ch + ShadowNode.fuelList rest

/-- One more than the number of nodes of the tree: a generous bound on
the recursion depth of the differ. -/
def ShadowNode.fuel (n : ShadowNode) : Nat := 1 + ShadowNode.fuelList n.children

/-- The public entry point `calculateShadowViewMutations(oldRootShadowNode,
newRootShadowNode, enableReparentingDetection)`: root update, recursive
diff of the flattened children, then — when reparenting detection fired —
the final pruning pass. -/
def calculateShadowViewMutations (oldRootShadowNode newRootShadowNode : ShadowNode)
    (enableReparentingDetection : Bool) : List ShadowViewMutation :=
  let reparentingMetadata := ReparentingMetadata.mkMeta enableReparentingDetection
  let oldRootShadowView := shadowViewOf oldRootShadowNode
  let newRootShadowView := shadowViewOf newRootShadowNode
  let rootUpdate :=
    if oldRootShadowView ≠ newRootShadowView then
      [ShadowViewMutation.UpdateMutation defaultShadowView
        oldRootShadowView newRootShadowView (-1)]
    else []
  let (meta1, b) :=
    calcKernel (oldRootShadowNode.fuel + newRootShadowNode.fuel + 1)
      reparentingMetadata (shadowViewOf oldRootShadowNode)
      (sliceChildShadowNodeViewPairs oldRootShadowNode)
      (sliceChildShadowNodeViewPairs newRootShadowNode)
  let mutations := rootUpdate ++ b.concat
  if 0 < meta1.reparentingOperations ∧ enableReparentingDetection = true then
    pruneMutations meta1.removeUselessRecords mutations
  else mutations

/-! ## Concrete fixtures used by the evaluation theorems -/

/-- Traits of an ordinary host view: it forms a view and a stacking
context and is not hidden. -/
def exTraits : Traits := ⟨true, true, false⟩

/-- A view-forming node with a tag, a props payload and children, no
layout applied and `orderIndex` 0. -/
def exNode (tag : Tag) (props : Nat) (children : List ShadowNode) : ShadowNode :=
  .mk tag 0 exTraits props EmptyLayoutMetrics (ShadowNodeList.ofList children)

/-! ## C9: flattener on a view-forming, non-stacking-context root -/

/-- C9: for every node whose traits contain `FormsView` but not
`FormsStackingContext`, `sliceChildShadowNodeViewPairs` returns the
empty list, regardless of the node's children. -/
theorem c9_slice_formsView_not_stackingContext_empty (node : ShadowNode)
    (hView : node.traits.formsView = true)
    (hCtx : node.traits.formsStackingContext = false) :
    sliceChildShadowNodeViewPairs node = [] := by
  unfold sliceChildShadowNodeViewPairs
  rw [if_pos ⟨hCtx, hView⟩]

/-- Witness for C9 at a concrete node with two children. -/
theorem c9_slice_formsView_not_stackingContext_empty_witness :
    sliceChildShadowNodeViewPairs
      (.mk 1 0 ⟨true, false, false⟩ 0 EmptyLayoutMetrics
        (ShadowNodeList.ofList [exNode 2 0 [], exNode 3 0 []])) = [] :=
  c9_slice_formsView_not_stackingContext_empty _ rfl rfl

/-! ## C4: field population of Create mutations -/

/-- C4 (divergence witness): `CreateMutation` of the source stores the
created view in `oldChildShadowView` and leaves `newChildShadowView`
default-constructed — the positional aggregate initializer of
`ShadowViewMutation.cpp` puts `shadowView` in the third position, which
in the record's field order is `oldChildShadowView`, contradicting both
the initializer's own inline field comments and the spec §6 table.  The
`index` is `-1` and the parent is default, as the claim states. -/
theorem c4_create_mutation_fields :
    (ShadowViewMutation.CreateMutation ⟨7, 3, EmptyLayoutMetrics⟩).oldChildShadowView =
        ⟨7, 3, EmptyLayoutMetrics⟩ ∧
    (ShadowViewMutation.CreateMutation ⟨7, 3, EmptyLayoutMetrics⟩).newChildShadowView =
        defaultShadowView ∧
    (ShadowViewMutation.CreateMutation ⟨7, 3, EmptyLayoutMetrics⟩).parentShadowView =
        defaultShadowView ∧
    (ShadowViewMutation.CreateMutation ⟨7, 3, EmptyLayoutMetrics⟩).index = -1 := by
  refine ⟨rfl, rfl, rfl, rfl⟩

/-! ## C6: markInserted on a fresh tag -/

/-- C6 (divergence witness): when reparenting detection is enabled and
`markInserted(parentTag = 1, node with tag 9, index = 0)` runs against
an empty side table, the freshly stored record holds the given index and
parent tag but its `opExists` does NOT contain the Insert bit: the
source's `it->second.opExists |= Insert` writes through the failed
lookup's `end()` iterator and never reaches the record it then stores. -/
theorem c6_markInserted_fresh_tag_no_insert_bit :
    (lookupOps ((ReparentingMetadata.mkMeta true).markInserted 1 (exNode 9 0 []) 0).tagsToOperations
        9).map
      (fun ops => (ops.opExists.test .insert, ops.removeInsertIndex, ops.parentTag)) =
      some (false, 0, 1) := by
  rfl

/-! ## List helper lemmas for the TinyMap proofs -/

/-- Setting an index at or beyond the taken prefix leaves the prefix
unchanged. -/
theorem take_set_of_le {α : Type} :
    ∀ (l : List α) (i n : Nat) (a : α), n ≤ i → (l.set i a).take n = l.take n
  | [], _, _, _, _ => by simp
  | _ :: _, _, 0, _, _ => by simp
  | _ :: _, 0, _ + 1, _, h => by omega
  | x :: xs, i + 1, n + 1, a, h => by
      simp only [List.set_cons_succ, List.take_succ_cons]
      rw [take_set_of_le xs i n a (by omega)]

/-- Taking one past a set index splits into the untouched prefix and the
new element. -/
theorem take_succ_set {α : Type} :
    ∀ (l : List α) (i : Nat) (a : α), i < l.length → (l.set i a).take (i + 1) = l.take i ++ [a]
  | [], i, _, h => by simp at h
  | _ :: _, 0, _, _ => by simp
  | x :: xs, i + 1, a, h => by
      simp only [List.set_cons_succ, List.take_succ_cons, List.cons_append]
      rw [take_succ_set xs i a (by simpa using h)]

/-- Unfolded characterisation of a successful `findIdx?` scan started at
accumulator `i`: the reported index is past the start, in range, and its
element satisfies the predicate. -/
theorem findIdx?_spec {α : Type} (p : α → Bool) :
    ∀ (l : List α) (i j : Nat), l.findIdx? p i = some j →
      i ≤ j ∧ ∃ h : j - i < l.length, p (l.get ⟨j - i, h⟩) = true
  | [], i, j, h => by simp [List.findIdx?_nil] at h
  | x :: xs, i, j, h => by
      rw [List.findIdx?_cons] at h
      by_cases hx : p x = true
      · rw [if_pos hx] at h
        obtain rfl : i = j := by simpa using h
        refine ⟨Nat.le_refl i, ⟨by simp, ?_⟩⟩
        simpa [Nat.sub_self] using hx
      · rw [if_neg hx] at h
        obtain ⟨h1, h2, h3⟩ := findIdx?_spec p xs (i + 1) j h
        refine ⟨by omega, ?_, ?_⟩
        · simp only [List.length_cons]
          omega
        · have hji : j - i = (j - (i + 1)) + 1 := by omega
          simp only [hji, List.get_cons_succ]
          exact h3

namespace TinyMap

variable {V : Type}

/-- The empty TinyMap satisfies the invariant. -/
theorem empty_inv : (empty : TinyMap V).Inv := by
  refine ⟨Nat.le_refl 0, Nat.le_refl 0, rfl, ?_⟩
  intro p hp
  simp [empty] at hp

/-- `cleanVector` preserves the invariant. -/
theorem cleanVector_inv (m : TinyMap V) (force : Bool) (h : m.Inv) :
    (m.cleanVector force).Inv := by
  unfold cleanVector
  split
  · exact h
  · split
    · exact ⟨Nat.le_refl 0, by simp, by simp, by intro p hp; simp at hp⟩
    · refine ⟨Nat.le_refl 0, by simp, ?_, by intro p hp; simp at hp⟩
      have : ((m.vector.filter (fun p => p.1 ≠ 0)).countP (fun p => p.1 = 0)) = 0 := by
        refine List.countP_eq_zero.mpr ?_
        intro a ha
        have := (List.mem_filter.mp ha).2
        simpa using this
      simp only [this]

/-- `insert` of a non-zero key preserves the invariant. -/
theorem insert_inv (m : TinyMap V) (k : Tag) (v : V) (hk : k ≠ 0) (h : m.Inv) :
    (m.insert k v).Inv := by
  obtain ⟨h1, h2, h3, h4⟩ := h
  refine ⟨h1, ?_, ?_, ?_⟩
  · simp only [insert, List.length_append, List.length_cons, List.length_nil]
    omega
  · simp only [insert, List.countP_append, h3]
    simp [hk]
  · intro p hp
    simp only [insert] at hp
    rw [List.take_append_of_le_length (Nat.le_trans h1 h2)] at hp
    exact h4 p hp

/-- `eraseIdx` of a live (non-zero-keyed) entry at or past the erased
front preserves the invariant. -/
theorem eraseIdx_inv (m : TinyMap V) (i : Nat) (k : Tag) (v : V)
    (hk : k ≠ 0) (hget : m.vector.get? i = some (k, v)) (hfront : m.erasedAtFront ≤ i)
    (h : m.Inv) : (m.eraseIdx i).Inv := by
  obtain ⟨h1, h2, h3, h4⟩ := h
  have hi : i < m.vector.length := by
    by_contra hcon
    rw [List.get?_eq_none.mpr (Nat.le_of_not_lt hcon)] at hget
    exact Option.noConfusion hget
  have helem : m.vector.get ⟨i, hi⟩ = (k, v) := by
    have := List.get?_eq_get hi (l := m.vector)
    rw [this] at hget
    exact Option.some.inj hget
  have hgetElem : m.vector[i] = (k, v) := helem
  have hcnt : (m.vector.set i (0, v)).countP (fun p => p.1 = 0) = m.numErased + 1 := by
    rw [List.countP_set _ _ _ _ hi]
    simp [hgetElem, hk, h3]
  have hmem : m.vector[i] ∈ m.vector := List.getElem_mem hi
  have hlt : m.numErased < m.vector.length := by
    rcases Nat.lt_or_ge m.numErased m.vector.length with hl | hg
    · exact hl
    · exfalso
      have heq : m.vector.countP (fun p => p.1 = 0) = m.vector.length := by omega
      have hall := List.countP_eq_length.mp heq (m.vector[i]) hmem
      rw [hgetElem] at hall
      simp at hall
      exact hk hall
  have hres : m.eraseIdx i =
      ⟨m.vector.set i (0, v), m.numErased + 1,
        if i = m.erasedAtFront then m.erasedAtFront + 1 else m.erasedAtFront⟩ := by
    unfold eraseIdx
    rw [hget]
  rw [hres]
  by_cases hieq : i = m.erasedAtFront
  · rw [if_pos hieq]
    refine ⟨Nat.succ_le_succ h1, ?_, hcnt, ?_⟩
    · simpa using hlt
    · intro p hp
      rw [← hieq, take_succ_set m.vector i (0, v) hi] at hp
      rcases List.mem_append.mp hp with hp1 | hp2
      · exact h4 p (by rw [hieq] at hp1; exact hp1)
      · simp at hp2
        simp [hp2]
  · rw [if_neg hieq]
    refine ⟨Nat.le_succ_of_le h1, ?_, hcnt, ?_⟩
    · simpa using hlt
    · intro p hp
      rw [take_set_of_le m.vector i m.erasedAtFront (0, v) hfront] at hp
      exact h4 p hp

/-- The map state returned by `find` is its cleaned input. -/
theorem findIdx_fst (m : TinyMap V) (key : Tag) :
    (m.findIdx key).1 = m.cleanVector false := rfl

/-- A successful `find` reports a live index at or past the erased
front, whose entry carries the sought key. -/
theorem findIdx_some_spec (m : TinyMap V) (key : Tag) (i : Nat)
    (hsome : (m.findIdx key).2 = some i) :
    (m.findIdx key).1.erasedAtFront ≤ i ∧
      ∃ v, (m.findIdx key).1.vector.get? i = some (key, v) := by
  rw [findIdx_fst]
  have hsome' : (((m.cleanVector false).vector.drop
        (m.cleanVector false).erasedAtFront).findIdx? (fun p : Tag × V => p.1 = key)).map
      (fun j => (m.cleanVector false).erasedAtFront + j) = some i := hsome
  obtain ⟨j, hf, hieq⟩ := Option.map_eq_some'.mp hsome'
  obtain ⟨-, hlt, hp⟩ := findIdx?_spec (fun p : Tag × V => p.1 = key) _ 0 j hf
  simp only [Nat.sub_zero] at hlt hp
  set c := m.cleanVector false with hc
  have hdl : (c.vector.drop c.erasedAtFront).length = c.vector.length - c.erasedAtFront :=
    List.length_drop _ _
  have hibound : i < c.vector.length := by omega
  have hgd : (c.vector.drop c.erasedAtFront).get ⟨j, hlt⟩ = c.vector.get ⟨i, hibound⟩ := by
    have hstep := List.getElem_drop c.vector (i := c.erasedAtFront) (j := j) (h := hlt)
    simp only [List.get_eq_getElem]
    rw [hstep]
    congr 1
  refine ⟨by omega, ?_⟩
  have hp' : ((c.vector.drop c.erasedAtFront).get ⟨j, hlt⟩).1 = key := by simpa using hp
  rw [hgd] at hp'
  refine ⟨(c.vector.get ⟨i, hibound⟩).2, ?_⟩
  rw [List.get?_eq_get hibound]
  have hpair : c.vector.get ⟨i, hibound⟩ = (key, (c.vector.get ⟨i, hibound⟩).2) := by
    rw [← hp']
  rw [← hpair]

end TinyMap

/-- C10: `insert` (non-zero key), `find`, `erase` (on a live iterator a
`find` with a non-zero key returned), `begin` and the empty constructor
each preserve the TinyMap invariant: `erasedAtFront ≤ numErased ≤ size`
(the `0 ≤` halves hold by construction since the counters are naturals),
the zero-keyed entries are counted exactly by `numErased`, and the first
`erasedAtFront` entries are all zero-keyed.  `end()` reads the vector
without mutating anything, so it preserves the invariant vacuously. -/
theorem c10_tinymap_operations_preserve_invariant (V : Type) (m : TinyMap V) (hInv : m.Inv) :
    (TinyMap.empty : TinyMap V).Inv ∧
    (∀ k v, k ≠ 0 → (m.insert k v).Inv) ∧
    (∀ key, ((m.findIdx key).1).Inv) ∧
    (∀ key i, key ≠ 0 → (m.findIdx key).2 = some i → ((m.findIdx key).1.eraseIdx i).Inv) ∧
    m.beginState.Inv := by
  refine ⟨TinyMap.empty_inv, ?_, ?_, ?_, ?_⟩
  · intro k v hk
    exact TinyMap.insert_inv m k v hk hInv
  · intro key
    rw [TinyMap.findIdx_fst]
    exact TinyMap.cleanVector_inv m false hInv
  · intro key i hkey hsome
    obtain ⟨hfront, v, hget⟩ := TinyMap.findIdx_some_spec m key i hsome
    exact TinyMap.eraseIdx_inv _ i key v hkey hget hfront
      (by rw [TinyMap.findIdx_fst]; exact TinyMap.cleanVector_inv m false hInv)
  · exact TinyMap.cleanVector_inv m _ hInv

/-- Witness for C10 at a concrete map: inserting keys 5 and 7 into the
empty map, finding 5 and erasing it each yield invariant-satisfying
states. -/
theorem c10_tinymap_operations_preserve_invariant_witness :
    ((((TinyMap.empty : TinyMap Nat).insert 5 50).insert 7 70).Inv) ∧
    ((((TinyMap.empty : TinyMap Nat).insert 5 50).findIdx 5).1.eraseIdx 0).Inv := by
  constructor
  · exact (c10_tinymap_operations_preserve_invariant Nat
      ((TinyMap.empty : TinyMap Nat).insert 5 50) (by decide)).2.1 7 70 (by decide)
  · exact (c10_tinymap_operations_preserve_invariant Nat
      ((TinyMap.empty : TinyMap Nat).insert 5 50) (by decide)).2.2.2.1 5 0 (by decide) (by decide)

/-! ## C5: the TinyMap compaction policy -/

/-- Zero-keyed entries never survive filtering by non-zero key. -/
theorem countP_zero_filter_ne_zero {V : Type} (l : List (Tag × V)) :
    (l.filter (fun p => p.1 ≠ 0)).countP (fun p => p.1 = 0) = 0 := by
  refine List.countP_eq_zero.mpr ?_
  intro a ha
  have := (List.mem_filter.mp ha).2
  simpa using this

/-- Exact characterisation of `cleanVector` under the invariant: it
physically compacts precisely when the erasures are not all contiguous
at the front AND (the erased count has reached half the backing size, or
the clean is forced); otherwise it leaves the map untouched.  After a
compaction the vector holds no zero-keyed entry and both counters are
reset to 0. -/
theorem TinyMap.cleanVector_spec {V : Type} (m : TinyMap V) (force : Bool) (h : m.Inv) :
    ((m.numErased ≠ m.erasedAtFront ∧ (m.vector.length / 2 ≤ m.numErased ∨ force = true)) →
      ((m.cleanVector force).vector.countP (fun p => p.1 = 0) = 0 ∧
        (m.cleanVector force).numErased = 0 ∧ (m.cleanVector force).erasedAtFront = 0)) ∧
    (¬(m.numErased ≠ m.erasedAtFront ∧ (m.vector.length / 2 ≤ m.numErased ∨ force = true)) →
      m.cleanVector force = m) := by
  obtain ⟨h1, h2, h3, h4⟩ := h
  by_cases hE : (m.numErased < m.vector.length / 2 ∧ force = false) ∨
      m.vector.length = 0 ∨ m.numErased = 0 ∨ m.numErased = m.erasedAtFront
  · have hclean : m.cleanVector force = m := by
      unfold TinyMap.cleanVector
      rw [if_pos hE]
    constructor
    · intro hA
      exfalso
      obtain ⟨hne, hhalf⟩ := hA
      rcases hE with ⟨hlt, hforce⟩ | hlen | hzero | heq
      · rcases hhalf with hh | hf
        · omega
        · rw [hforce] at hf
          exact Bool.noConfusion hf
      · omega
      · omega
      · exact hne heq
    · intro _
      exact hclean
  · constructor
    · intro _
      unfold TinyMap.cleanVector
      rw [if_neg hE]
      by_cases hfull : m.numErased = m.vector.length
      · rw [if_pos hfull]
        exact ⟨rfl, rfl, rfl⟩
      · rw [if_neg hfull]
        exact ⟨countP_zero_filter_ne_zero m.vector, rfl, rfl⟩
    · intro hnA
      exfalso
      apply hnA
      constructor
      · intro heq
        exact hE (Or.inr (Or.inr (Or.inr heq)))
      · by_cases hf : force = true
        · exact Or.inr hf
        · left
          by_contra hcon
          apply hE
          left
          refine ⟨by omega, ?_⟩
          cases force
          · rfl
          · exact absurd rfl hf

/-- The concrete TinyMap state of the C5 counterexample: four entries
inserted, then the two front entries (keys 1 and 2) erased through live
`find` iterators — so `numErased = erasedAtFront = 2` on a backing
vector of size 4. -/
def c5state : TinyMap Nat :=
  let m0 := ((((TinyMap.empty : TinyMap Nat).insert 1 10).insert 2 20).insert 3 30).insert 4 40
  let m1 := match m0.findIdx 1 with
    | (m, some i) => m.eraseIdx i
    | (m, none) => m
  match m1.findIdx 2 with
  | (m, some i) => m.eraseIdx i
  | (m, none) => m

/-- C5 counterexample: at a cleaning point (a `find`) whose erased count
(2) is at least half the backing vector's size (4 / 2), the zero-keyed
entries are NOT physically removed — the map comes back unchanged, its
backing vector still holding two zero-keyed entries — because the
source's `cleanVector` also skips compaction whenever all erasures sit
contiguously at the front (`numErased_ == erasedAtFront_`).  This
refutes the claim's "exactly when". -/
theorem c5_compaction_policy_counterexample :
    c5state.Inv ∧
    c5state.vector.length = 4 ∧
    c5state.numErased = 2 ∧
    c5state.vector.length / 2 ≤ c5state.numErased ∧
    (c5state.findIdx 3).1 = c5state ∧
    (c5state.findIdx 3).1.vector.countP (fun p => p.1 = 0) = 2 := by
  decide

/-- C5 amended: at a cleaning point, TinyMap physically removes its
zero-keyed entries exactly when the erasures are not all contiguous at
the front (`numErased ≠ erasedAtFront`) and, additionally, either the
erased count has reached half the backing size (for `find`, which never
forces) or the clean is forced because iteration would start mid-vector
(for `begin`, which forces exactly when `erasedAtFront ≠ numErased`);
after a compaction both counters are reset to 0. -/
theorem c5_amended_compaction_policy (V : Type) (m : TinyMap V) (key : Tag) (h : m.Inv) :
    ((m.numErased ≠ m.erasedAtFront ∧ m.vector.length / 2 ≤ m.numErased) →
      ((m.findIdx key).1.vector.countP (fun p => p.1 = 0) = 0 ∧
        (m.findIdx key).1.numErased = 0 ∧ (m.findIdx key).1.erasedAtFront = 0)) ∧
    (¬(m.numErased ≠ m.erasedAtFront ∧ m.vector.length / 2 ≤ m.numErased) →
      (m.findIdx key).1 = m) ∧
    (m.numErased ≠ m.erasedAtFront →
      (m.beginState.vector.countP (fun p => p.1 = 0) = 0 ∧
        m.beginState.numErased = 0 ∧ m.beginState.erasedAtFront = 0)) ∧
    (m.numErased = m.erasedAtFront → m.beginState = m) := by
  obtain ⟨hspec1, hspec2⟩ := TinyMap.cleanVector_spec m false h
  refine ⟨?_, ?_, ?_, ?_⟩
  · rintro ⟨hne, hhalf⟩
    rw [TinyMap.findIdx_fst]
    exact hspec1 ⟨hne, Or.inl hhalf⟩
  · intro hnA
    rw [TinyMap.findIdx_fst]
    apply hspec2
    rintro ⟨hne, hor⟩
    rcases hor with hh | hf
    · exact hnA ⟨hne, hh⟩
    · exact Bool.noConfusion hf
  · intro hne
    have hforce : decide (m.erasedAtFront ≠ m.numErased) = true := by
      simp
      omega
    obtain ⟨hb1, _⟩ := TinyMap.cleanVector_spec m (decide (m.erasedAtFront ≠ m.numErased)) h
    exact hb1 ⟨hne, Or.inr hforce⟩
  · intro heq
    obtain ⟨-, hb2⟩ := TinyMap.cleanVector_spec m (decide (m.erasedAtFront ≠ m.numErased)) h
    apply hb2
    rintro ⟨hne, -⟩
    exact hne heq

/-! ## C1: null diff -/

/-- Concatenating empty buckets yields no mutations. -/
theorem Buckets.concat_empty : Buckets.empty.concat = [] := rfl

/-- Stage 1 on two identical (diagonal) child lists, driven by a
recursion that is itself silent on the diagonal: every lockstep step
matches, emits nothing and changes nothing, so the whole walk consumes
both lists. -/
theorem stage1_diag (recFn : RecFn) (parentShadowView : ShadowView)
    (hrec : ∀ m p s, recFn m p s s = (m, [])) :
    ∀ (l : List ShadowViewNodePair) (idx : Nat) (st : DiffState),
      stage1 recFn parentShadowView l l idx st = (st, idx + l.length, [], [])
  | [], idx, st => by simp [stage1]
  | o :: rest, idx, st => by
      rw [stage1]
      rw [if_neg (by simp)]
      simp only [ne_eq, eq_self_iff_true, not_true_eq_false, if_false, hrec,
        List.append_nil, ite_self]
      rw [stage1_diag recFn parentShadowView hrec rest (idx + 1) ⟨st.meta, st.buckets⟩]
      have harith : idx + 1 + rest.length = idx + (rest.length + 1) := by omega
      simp [harith]

/-- One activation on two identical child lists is silent, whenever its
recursive invocations are silent on identical lists. -/
theorem calcBody_diag (recFn : RecFn) (meta : ReparentingMetadata)
    (parentShadowView : ShadowView) (l : List ShadowViewNodePair)
    (hrec : ∀ m p s, recFn m p s s = (m, [])) :
    calcBody recFn meta parentShadowView l l = (meta, Buckets.empty) := by
  unfold calcBody
  by_cases hl : l.isEmpty ∧ l.isEmpty
  · rw [if_pos hl]
  · rw [if_neg hl]
    simp only [stage1_diag recFn parentShadowView hrec (reorderInPlaceIfNeeded l) 0
      ⟨meta, Buckets.empty⟩]
    simp [stage2]

/-- The recursive differ is silent on the diagonal: diffing any child
list against itself produces no mutations and leaves the metadata
untouched, at every fuel. -/
theorem calcKernel_diag :
    ∀ (fuel : Nat) (meta : ReparentingMetadata) (parentShadowView : ShadowView)
      (l : List ShadowViewNodePair),
      calcKernel fuel meta parentShadowView l l = (meta, Buckets.empty)
  | 0, _, _, _ => rfl
  | fuel + 1, meta, parentShadowView, l => by
      rw [calcKernel]
      refine calcBody_diag _ meta parentShadowView l ?_
      intro m p s
      simp only [calcKernel_diag fuel m p s]
      rfl

/-- C1: for every shadow node `t` (any traits, children, order indices)
and either value of `enableReparentingDetection`,
`calculateShadowViewMutations(t, t, flag)` returns an empty mutation
list. -/
theorem c1_null_diff (t : ShadowNode) (enableReparentingDetection : Bool) :
    calculateShadowViewMutations t t enableReparentingDetection = [] := by
  unfold calculateShadowViewMutations
  simp only [calcKernel_diag]
  simp [ReparentingMetadata.mkMeta, Buckets.concat_empty]

/-! ## C7: Update indices -/

/-- Old tree of the C7 run: root 1 with children A = tag 2 (props 1) and
B = tag 3. -/
def c7old : ShadowNode := exNode 1 0 [exNode 2 1 [], exNode 3 0 []]

/-- New tree of the C7 run: the children reordered to [B, A] with A's
props changed to 2. -/
def c7new : ShadowNode := exNode 1 0 [exNode 3 0 [], exNode 2 2 []]

/-- C7 (divergence witness): diffing `c7old` against `c7new` exercises
the stage-E aligned-match Update.  The emitted Update carries index 2 —
the stale C++ loop variable `index`, equal to the length of the new
child list — although child A's slot in the new flattened ordering is 1
and the claim allows only the slot or -1.  (The accompanying Remove of B
is at old index 1 and the Insert of B at new index 0, as expected.) -/
theorem c7_update_index_stale :
    calculateShadowViewMutations c7old c7new false =
      [ShadowViewMutation.UpdateMutation (shadowViewOf c7old)
          (shadowViewOf (exNode 2 1 [])) (shadowViewOf (exNode 2 2 [])) 2,
        ShadowViewMutation.RemoveMutation (shadowViewOf c7old)
          (shadowViewOf (exNode 3 0 [])) 1,
        ShadowViewMutation.InsertMutation (shadowViewOf c7old)
          (shadowViewOf (exNode 3 0 [])) 0] := by
  decide

/-! ## C8: mutation types with reparenting on versus off -/

/-- Old tree of the C8 run: root 1 with P = tag 2 holding X = tag 9
(props 7) and an empty Q = tag 3. -/
def c8old : ShadowNode := exNode 1 0 [exNode 2 0 [exNode 9 7 []], exNode 3 0 []]

/-- New tree of the C8 run: X moved from P to Q with its props changed
to 8. -/
def c8new : ShadowNode := exNode 1 0 [exNode 2 0 [], exNode 3 0 [exNode 9 8 []]]

/-- C8 counterexample: moving X between parents while its view changes
makes the reparenting-enabled run synthesize an Update mutation, a type
entirely absent from the disabled run (whose types are Remove, Delete,
Create, Insert) — so the disabled run's type set is not a superset of
the enabled run's. -/
theorem c8_superset_counterexample :
    ((calculateShadowViewMutations c8old c8new true).any
        (fun mu => mu.mutationType == .update)) = true ∧
    ((calculateShadowViewMutations c8old c8new false).any
        (fun mu => mu.mutationType == .update)) = false := by
  decide

/-- Presence of a mutation type in a list. -/
def hasType (T : MutationType) (l : List ShadowViewMutation) : Prop :=
  ∃ mu ∈ l, mu.mutationType = T

/-- Type-domination between mutation lists: every non-Update type
present on the left is present on the right. -/
def DomL (x y : List ShadowViewMutation) : Prop :=
  ∀ T, T ≠ .update → hasType T x → hasType T y

/-- Componentwise type-domination between bucket septuples. -/
def DomB (b bOff : Buckets) : Prop :=
  DomL b.createM bOff.createM ∧ DomL b.deleteM bOff.deleteM ∧
  DomL b.insertM bOff.insertM ∧ DomL b.removeM bOff.removeM ∧
  DomL b.updateM bOff.updateM ∧ DomL b.downwardM bOff.downwardM ∧
  DomL b.destructiveM bOff.destructiveM

theorem DomL.refl (x : List ShadowViewMutation) : DomL x x := fun _ _ h => h

theorem DomL.nil_left (y : List ShadowViewMutation) : DomL [] y := by
  intro T _ hT
  rcases hT with ⟨mu, hmu, -⟩
  exact absurd hmu (List.not_mem_nil mu)

theorem DomL.append {x y s t : List ShadowViewMutation} (h1 : DomL x y) (h2 : DomL s t) :
    DomL (x ++ s) (y ++ t) := by
  intro T hT ⟨mu, hmu, hty⟩
  rcases List.mem_append.mp hmu with hm | hm
  · rcases h1 T hT ⟨mu, hm, hty⟩ with ⟨mu', hmu', hty'⟩
    exact ⟨mu', List.mem_append.mpr (Or.inl hmu'), hty'⟩
  · rcases h2 T hT ⟨mu, hm, hty⟩ with ⟨mu', hmu', hty'⟩
    exact ⟨mu', List.mem_append.mpr (Or.inr hmu'), hty'⟩

theorem DomL.grow_right {x y : List ShadowViewMutation} (z : List ShadowViewMutation)
    (h : DomL x y) : DomL x (y ++ z) := by
  intro T hT hx
  rcases h T hT hx with ⟨mu, hmu, hty⟩
  exact ⟨mu, List.mem_append.mpr (Or.inl hmu), hty⟩

/-- Pushing an Update-typed mutation on the left never breaks
domination. -/
theorem DomL.push_update {x y : List ShadowViewMutation} (h : DomL x y)
    (mu : ShadowViewMutation) (hmu : mu.mutationType = .update) :
    DomL (x ++ [mu]) y := by
  intro T hT ⟨mu', hmu', hty'⟩
  rcases List.mem_append.mp hmu' with hm | hm
  · exact h T hT ⟨mu', hm, hty'⟩
  · simp only [List.mem_singleton] at hm
    subst hm
    exact absurd (hty'.symm.trans hmu) hT

/-- Conditionally pushing on the left versus unconditionally pushing the
same element on the right preserves domination. -/
theorem DomL.cond_push {x y : List ShadowViewMutation} (h : DomL x y) (c : Bool)
    (mu : ShadowViewMutation) :
    DomL (if c then x ++ [mu] else x) (y ++ [mu]) := by
  cases c
  · simpa using DomL.grow_right [mu] h
  · simpa using DomL.append h (DomL.refl [mu])

/-- Pushing the same element under the same condition on both sides
preserves domination. -/
theorem DomL.ite_push {x y : List ShadowViewMutation} (h : DomL x y) (c : Prop)
    [Decidable c] (mu : ShadowViewMutation) :
    DomL (if c then x ++ [mu] else x) (if c then y ++ [mu] else y) := by
  split
  · exact DomL.append h (DomL.refl [mu])
  · exact h

/-- Domination transfers through reversal. -/
theorem DomL.reverse {x y : List ShadowViewMutation} (h : DomL x y) :
    DomL x.reverse y.reverse := by
  intro T hT ⟨mu, hmu, hty⟩
  rcases h T hT ⟨mu, List.mem_reverse.mp hmu, hty⟩ with ⟨mu', hmu', hty'⟩
  exact ⟨mu', List.mem_reverse.mpr hmu', hty'⟩

theorem DomB.empty_empty : DomB Buckets.empty Buckets.empty :=
  ⟨DomL.refl _, DomL.refl _, DomL.refl _, DomL.refl _, DomL.refl _, DomL.refl _, DomL.refl _⟩

/-- Componentwise domination gives domination of the §4.3-G
concatenations. -/
theorem DomB.concat {b bOff : Buckets} (h : DomB b bOff) :
    DomL b.concat bOff.concat := by
  obtain ⟨hc, hd, hi, hr, hu, hdw, hde⟩ := h
  unfold Buckets.concat
  exact ((((((hde.append hu).append hr.reverse).append hd).append hc).append hdw).append hi)

/-- The pruning pass only drops mutations, so every element of its
output was in its input. -/
theorem pruneMutations_subset (meta : ReparentingMetadata) (l : List ShadowViewMutation) :
    ∀ mu ∈ pruneMutations meta l, mu ∈ l := by
  induction l generalizing meta with
  | nil => intro mu hmu; simp [pruneMutations] at hmu
  | cons m rest ih =>
      intro mu hmu
      rw [pruneMutations] at hmu
      by_cases hz : meta.reparentingOperations = 0
      · rw [if_pos hz] at hmu
        rcases List.mem_cons.mp hmu with h | h
        · exact List.mem_cons.mpr (Or.inl h)
        · exact List.mem_cons.mpr (Or.inr (ih meta mu h))
      · rw [if_neg hz] at hmu
        split at hmu
        · rcases List.mem_cons.mp hmu with h | h
          · exact List.mem_cons.mpr (Or.inl h)
          · exact List.mem_cons.mpr (Or.inr (ih meta mu h))
        · split at hmu
          · exact List.mem_cons.mpr (Or.inr (ih _ mu hmu))
          · rcases List.mem_cons.mp hmu with h | h
            · exact List.mem_cons.mpr (Or.inl h)
            · exact List.mem_cons.mpr (Or.inr (ih _ mu h))

/-- With reparenting disabled, `shouldRemoveDeleteUpdate` answers "emit
both" and changes nothing. -/
theorem shouldRemoveDeleteUpdate_disabled (meta : ReparentingMetadata)
    (hm : meta.enabled = false) (parentTag : Tag) (node : ShadowNode) (index : Int) :
    meta.shouldRemoveDeleteUpdate parentTag node index = (meta, true, true, none) := by
  simp [ReparentingMetadata.shouldRemoveDeleteUpdate, hm]

/-- With reparenting disabled, `shouldCreateInsertUpdate` answers "emit
both" and changes nothing. -/
theorem shouldCreateInsertUpdate_disabled (meta : ReparentingMetadata)
    (hm : meta.enabled = false) (parentTag : Tag) (node : ShadowNode) (index : Int) :
    meta.shouldCreateInsertUpdate parentTag node index = (meta, true, true, none) := by
  simp [ReparentingMetadata.shouldCreateInsertUpdate, hm]

/-- With reparenting disabled, `shouldCreateUpdate` answers "create" and
changes nothing. -/
theorem shouldCreateUpdate_disabled (meta : ReparentingMetadata)
    (hm : meta.enabled = false) (node : ShadowNode) :
    meta.shouldCreateUpdate node = (meta, true, none) := by
  simp [ReparentingMetadata.shouldCreateUpdate, hm]

/-- With reparenting disabled, `markInserted` changes nothing. -/
theorem markInserted_disabled (meta : ReparentingMetadata)
    (hm : meta.enabled = false) (parentTag : Tag) (node : ShadowNode) (index : Int) :
    meta.markInserted parentTag node index = meta := by
  simp [ReparentingMetadata.markInserted, hm]

/-- Pushing the same element on both updateM buckets under the same
condition. -/
theorem DomB.update_ite_push {b bOff : Buckets} (h : DomB b bOff) (c : Prop) [Decidable c]
    (mu : ShadowViewMutation) :
    DomB (if c then { b with updateM := b.updateM ++ [mu] } else b)
      (if c then { bOff with updateM := bOff.updateM ++ [mu] } else bOff) := by
  obtain ⟨h1, h2, h3, h4, h5, h6, h7⟩ := h
  split
  · exact ⟨h1, h2, h3, h4, h5.append (DomL.refl _), h6, h7⟩
  · exact ⟨h1, h2, h3, h4, h5, h6, h7⟩

/-- An on-side-only conditional Update push never breaks bucket
domination. -/
theorem DomB.update_push_left {b bOff : Buckets} (h : DomB b bOff) (c : Prop) [Decidable c]
    (mu : ShadowViewMutation) (hmu : mu.mutationType = .update) :
    DomB (if c then { b with updateM := b.updateM ++ [mu] } else b) bOff := by
  obtain ⟨h1, h2, h3, h4, h5, h6, h7⟩ := h
  split
  · exact ⟨h1, h2, h3, h4, h5.push_update mu hmu, h6, h7⟩
  · exact ⟨h1, h2, h3, h4, h5, h6, h7⟩

/-- A conditional on-side Delete push against an unconditional off-side
push of the same element. -/
theorem DomB.delete_cond_push {b bOff : Buckets} (h : DomB b bOff) (c : Bool)
    (mu : ShadowViewMutation) :
    DomB (if c then { b with deleteM := b.deleteM ++ [mu] } else b)
      { bOff with deleteM := bOff.deleteM ++ [mu] } := by
  obtain ⟨h1, h2, h3, h4, h5, h6, h7⟩ := h
  cases c
  · exact ⟨h1, h2.grow_right [mu], h3, h4, h5, h6, h7⟩
  · exact ⟨h1, h2.append (DomL.refl _), h3, h4, h5, h6, h7⟩

/-- A conditional on-side Remove push against an unconditional off-side
push of the same element. -/
theorem DomB.remove_cond_push {b bOff : Buckets} (h : DomB b bOff) (c : Bool)
    (mu : ShadowViewMutation) :
    DomB (if c then { b with removeM := b.removeM ++ [mu] } else b)
      { bOff with removeM := bOff.removeM ++ [mu] } := by
  obtain ⟨h1, h2, h3, h4, h5, h6, h7⟩ := h
  cases c
  · exact ⟨h1, h2, h3, h4.grow_right [mu], h5, h6, h7⟩
  · exact ⟨h1, h2, h3, h4.append (DomL.refl _), h5, h6, h7⟩

/-- A conditional on-side Insert push against an unconditional off-side
push of the same element. -/
theorem DomB.insert_cond_push {b bOff : Buckets} (h : DomB b bOff) (c : Bool)
    (mu : ShadowViewMutation) :
    DomB (if c then { b with insertM := b.insertM ++ [mu] } else b)
      { bOff with insertM := bOff.insertM ++ [mu] } := by
  obtain ⟨h1, h2, h3, h4, h5, h6, h7⟩ := h
  cases c
  · exact ⟨h1, h2, h3.grow_right [mu], h4, h5, h6, h7⟩
  · exact ⟨h1, h2, h3.append (DomL.refl _), h4, h5, h6, h7⟩

/-- A conditional on-side Create push against an unconditional off-side
push of the same element. -/
theorem DomB.create_cond_push {b bOff : Buckets} (h : DomB b bOff) (c : Bool)
    (mu : ShadowViewMutation) :
    DomB (if c then { b with createM := b.createM ++ [mu] } else b)
      { bOff with createM := bOff.createM ++ [mu] } := by
  obtain ⟨h1, h2, h3, h4, h5, h6, h7⟩ := h
  cases c
  · exact ⟨h1.grow_right [mu], h2, h3, h4, h5, h6, h7⟩
  · exact ⟨h1.append (DomL.refl _), h2, h3, h4, h5, h6, h7⟩

/-- Unconditional identical Remove pushes on both sides. -/
theorem DomB.remove_push_both {b bOff : Buckets} (h : DomB b bOff)
    (mu : ShadowViewMutation) :
    DomB { b with removeM := b.removeM ++ [mu] }
      { bOff with removeM := bOff.removeM ++ [mu] } := by
  obtain ⟨h1, h2, h3, h4, h5, h6, h7⟩ := h
  exact ⟨h1, h2, h3, h4.append (DomL.refl _), h5, h6, h7⟩

/-- Unconditional identical Insert pushes on both sides. -/
theorem DomB.insert_push_both {b bOff : Buckets} (h : DomB b bOff)
    (mu : ShadowViewMutation) :
    DomB { b with insertM := b.insertM ++ [mu] }
      { bOff with insertM := bOff.insertM ++ [mu] } := by
  obtain ⟨h1, h2, h3, h4, h5, h6, h7⟩ := h
  exact ⟨h1, h2, h3.append (DomL.refl _), h4, h5, h6, h7⟩

/-- Appending dominated sublists to the downward-or-destructive bucket
chosen by a shared condition. -/
theorem DomB.downchoice {b bOff : Buckets} (h : DomB b bOff) (c : Prop) [Decidable c]
    {s t : List ShadowViewMutation} (hs : DomL s t) :
    DomB (if c then { b with downwardM := b.downwardM ++ s }
          else { b with destructiveM := b.destructiveM ++ s })
      (if c then { bOff with downwardM := bOff.downwardM ++ t }
          else { bOff with destructiveM := bOff.destructiveM ++ t }) := by
  obtain ⟨h1, h2, h3, h4, h5, h6, h7⟩ := h
  split
  · exact ⟨h1, h2, h3, h4, h5, h6.append hs, h7⟩
  · exact ⟨h1, h2, h3, h4, h5, h6, h7.append hs⟩

/-- Appending dominated sublists to the destructive bucket on both
sides. -/
theorem DomB.destructive_append {b bOff : Buckets} (h : DomB b bOff)
    {s t : List ShadowViewMutation} (hs : DomL s t) :
    DomB { b with destructiveM := b.destructiveM ++ s }
      { bOff with destructiveM := bOff.destructiveM ++ t } := by
  obtain ⟨h1, h2, h3, h4, h5, h6, h7⟩ := h
  exact ⟨h1, h2, h3, h4, h5, h6, h7.append hs⟩

/-- Appending dominated sublists to the downward bucket on both sides. -/
theorem DomB.downward_append {b bOff : Buckets} (h : DomB b bOff)
    {s t : List ShadowViewMutation} (hs : DomL s t) :
    DomB { b with downwardM := b.downwardM ++ s }
      { bOff with downwardM := bOff.downwardM ++ t } := by
  obtain ⟨h1, h2, h3, h4, h5, h6, h7⟩ := h
  exact ⟨h1, h2, h3, h4, h5, h6.append hs, h7⟩

/-- Stage 1 run in parallel: with reparenting on (arbitrary metadata)
and off (fixed disabled metadata `m₀`), the control outputs (stop index
and list remainders) coincide, the off metadata stays `m₀`, and the
buckets stay dominated. -/
theorem stage1_dom (recFnOn recFnOff : RecFn) (parentShadowView : ShadowView)
    (m₀ : ReparentingMetadata)
    (hrecDom : ∀ (mA : ReparentingMetadata) (p : ShadowView)
      (o n : List ShadowViewNodePair),
      DomL (recFnOn mA p o n).2 ((recFnOff m₀ p o n).2))
    (hrecOff : ∀ (p : ShadowView) (o n : List ShadowViewNodePair),
      (recFnOff m₀ p o n).1 = m₀) :
    ∀ (olds news : List ShadowViewNodePair) (idx : Nat) (stOn stOff : DiffState),
      DomB stOn.buckets stOff.buckets → stOff.meta = m₀ →
      DomB ((stage1 recFnOn parentShadowView olds news idx stOn).1).buckets
          ((stage1 recFnOff parentShadowView olds news idx stOff).1).buckets ∧
      ((stage1 recFnOff parentShadowView olds news idx stOff).1).meta = m₀ ∧
      (stage1 recFnOn parentShadowView olds news idx stOn).2 =
        (stage1 recFnOff parentShadowView olds news idx stOff).2
  | [], news, idx, stOn, stOff, hB, hM => by
      simpa [stage1] using ⟨hB, hM⟩
  | _ :: _, [], idx, stOn, stOff, hB, hM => by
      simpa [stage1] using ⟨hB, hM⟩
  | o :: olds, n :: news, idx, stOn, stOff, hB, hM => by
      rw [stage1, stage1]
      by_cases htag : o.shadowView.tag ≠ n.shadowView.tag
      · rw [if_pos htag, if_pos htag]
        exact ⟨hB, hM, rfl⟩
      · rw [if_neg htag, if_neg htag, hM]
        rcases hrOn : recFnOn stOn.meta o.shadowView
            (sliceChildShadowNodeViewPairs o.shadowNode)
            (sliceChildShadowNodeViewPairs n.shadowNode) with ⟨mOn, subOn⟩
        rcases hrOff : recFnOff m₀ o.shadowView
            (sliceChildShadowNodeViewPairs o.shadowNode)
            (sliceChildShadowNodeViewPairs n.shadowNode) with ⟨mOff, subOff⟩
        simp only [hrOn, hrOff]
        have hsub : DomL subOn subOff := by
          have hd := hrecDom stOn.meta o.shadowView
            (sliceChildShadowNodeViewPairs o.shadowNode)
            (sliceChildShadowNodeViewPairs n.shadowNode)
          rw [hrOn, hrOff] at hd
          exact hd
        have hmOff : mOff = m₀ := by
          have ho := hrecOff o.shadowView
            (sliceChildShadowNodeViewPairs o.shadowNode)
            (sliceChildShadowNodeViewPairs n.shadowNode)
          rw [hrOff] at ho
          exact ho
        exact stage1_dom recFnOn recFnOff parentShadowView m₀ hrecDom hrecOff olds news
          (idx + 1) _ _ ((hB.update_ite_push _ _).downchoice _ hsub) hmOff

/-- Stage 2 in parallel: the off side emits every Delete and Remove the
on side may suppress, and the on side's extra synthesized Updates do not
affect non-Update domination. -/
theorem stage2_dom (recFnOn recFnOff : RecFn) (parentShadowView : ShadowView)
    (m₀ : ReparentingMetadata) (hm₀ : m₀.enabled = false)
    (hrecDom : ∀ (mA : ReparentingMetadata) (p : ShadowView)
      (o n : List ShadowViewNodePair),
      DomL (recFnOn mA p o n).2 ((recFnOff m₀ p o n).2))
    (hrecOff : ∀ (p : ShadowView) (o n : List ShadowViewNodePair),
      (recFnOff m₀ p o n).1 = m₀) :
    ∀ (olds : List ShadowViewNodePair) (idx : Nat) (stOn stOff : DiffState),
      DomB stOn.buckets stOff.buckets → stOff.meta = m₀ →
      DomB ((stage2 recFnOn parentShadowView olds idx stOn)).buckets
          ((stage2 recFnOff parentShadowView olds idx stOff)).buckets ∧
      ((stage2 recFnOff parentShadowView olds idx stOff)).meta = m₀
  | [], idx, stOn, stOff, hB, hM => by simpa [stage2] using ⟨hB, hM⟩
  | o :: olds, idx, stOn, stOff, hB, hM => by
      rw [stage2, stage2, hM,
        shouldRemoveDeleteUpdate_disabled m₀ hm₀ parentShadowView.tag o.shadowNode (idx : Int)]
      rcases hrOn : stOn.meta.shouldRemoveDeleteUpdate parentShadowView.tag
          o.shadowNode (idx : Int) with ⟨mOn1, sRem, sDel, newTn⟩
      simp only [hrOn]
      rcases hsOn : recFnOn mOn1 o.shadowView
          (sliceChildShadowNodeViewPairs o.shadowNode) [] with ⟨mOn2, subOn⟩
      rcases hsOff : recFnOff m₀ o.shadowView
          (sliceChildShadowNodeViewPairs o.shadowNode) [] with ⟨mOff2, subOff⟩
      simp only [hsOn, hsOff]
      have hsub : DomL subOn subOff := by
        have hd := hrecDom mOn1 o.shadowView (sliceChildShadowNodeViewPairs o.shadowNode) []
        rw [hsOn, hsOff] at hd
        exact hd
      have hmOff : mOff2 = m₀ := by
        have ho := hrecOff o.shadowView (sliceChildShadowNodeViewPairs o.shadowNode) []
        rw [hsOff] at ho
        exact ho
      refine stage2_dom recFnOn recFnOff parentShadowView m₀ hm₀ hrecDom hrecOff olds
        (idx + 1) _ _ ?_ hmOff
      simp only [if_pos rfl]
      have h2 := (hB.delete_cond_push sDel
          (ShadowViewMutation.DeleteMutation o.shadowView)).remove_cond_push sRem
        (ShadowViewMutation.RemoveMutation parentShadowView o.shadowView (idx : Int))
      rcases newTn with _ | nn
      · exact h2.destructive_append hsub
      · exact (h2.update_push_left _ _ rfl).destructive_append hsub

/-- Stage 3 in parallel: the off side emits every Insert and Create the
on side may suppress. -/
theorem stage3_dom (recFnOn recFnOff : RecFn) (parentShadowView : ShadowView)
    (m₀ : ReparentingMetadata) (hm₀ : m₀.enabled = false)
    (hrecDom : ∀ (mA : ReparentingMetadata) (p : ShadowView)
      (o n : List ShadowViewNodePair),
      DomL (recFnOn mA p o n).2 ((recFnOff m₀ p o n).2))
    (hrecOff : ∀ (p : ShadowView) (o n : List ShadowViewNodePair),
      (recFnOff m₀ p o n).1 = m₀) :
    ∀ (news : List ShadowViewNodePair) (idx : Nat) (stOn stOff : DiffState),
      DomB stOn.buckets stOff.buckets → stOff.meta = m₀ →
      DomB ((stage3 recFnOn parentShadowView news idx stOn)).buckets
          ((stage3 recFnOff parentShadowView news idx stOff)).buckets ∧
      ((stage3 recFnOff parentShadowView news idx stOff)).meta = m₀
  | [], idx, stOn, stOff, hB, hM => by simpa [stage3] using ⟨hB, hM⟩
  | n :: news, idx, stOn, stOff, hB, hM => by
      rw [stage3, stage3, hM,
        shouldCreateInsertUpdate_disabled m₀ hm₀ parentShadowView.tag n.shadowNode (idx : Int)]
      rcases hrOn : stOn.meta.shouldCreateInsertUpdate parentShadowView.tag
          n.shadowNode (idx : Int) with ⟨mOn1, sIns, sCre, oldTn⟩
      simp only [hrOn]
      rcases hsOn : recFnOn mOn1 n.shadowView []
          (sliceChildShadowNodeViewPairs n.shadowNode) with ⟨mOn2, subOn⟩
      rcases hsOff : recFnOff m₀ n.shadowView []
          (sliceChildShadowNodeViewPairs n.shadowNode) with ⟨mOff2, subOff⟩
      simp only [hsOn, hsOff]
      have hsub : DomL subOn subOff := by
        have hd := hrecDom mOn1 n.shadowView [] (sliceChildShadowNodeViewPairs n.shadowNode)
        rw [hsOn, hsOff] at hd
        exact hd
      have hmOff : mOff2 = m₀ := by
        have ho := hrecOff n.shadowView [] (sliceChildShadowNodeViewPairs n.shadowNode)
        rw [hsOff] at ho
        exact ho
      refine stage3_dom recFnOn recFnOff parentShadowView m₀ hm₀ hrecDom hrecOff news
        (idx + 1) _ _ ?_ hmOff
      simp only [if_pos rfl]
      have h2 := (hB.insert_cond_push sIns
          (ShadowViewMutation.InsertMutation parentShadowView n.shadowView
            (idx : Int))).create_cond_push sCre
        (ShadowViewMutation.CreateMutation n.shadowView)
      rcases oldTn with _ | oldNn
      · exact h2.downward_append hsub
      · exact (h2.update_push_left _ _ rfl).downward_append hsub

/-- Stage F in parallel: the off side always creates; the on side's
suppressed Creates and synthesized Updates keep domination. -/
theorem stageF_dom (recFnOn recFnOff : RecFn) (parentShadowView : ShadowView)
    (m₀ : ReparentingMetadata) (hm₀ : m₀.enabled = false)
    (hrecDom : ∀ (mA : ReparentingMetadata) (p : ShadowView)
      (o n : List ShadowViewNodePair),
      DomL (recFnOn mA p o n).2 ((recFnOff m₀ p o n).2))
    (hrecOff : ∀ (p : ShadowView) (o n : List ShadowViewNodePair),
      (recFnOff m₀ p o n).1 = m₀) :
    ∀ (entries : List (Tag × ShadowViewNodePair)) (stOn stOff : DiffState),
      DomB stOn.buckets stOff.buckets → stOff.meta = m₀ →
      DomB ((stageF recFnOn parentShadowView entries stOn)).buckets
          ((stageF recFnOff parentShadowView entries stOff)).buckets ∧
      ((stageF recFnOff parentShadowView entries stOff)).meta = m₀
  | [], stOn, stOff, hB, hM => by simpa [stageF] using ⟨hB, hM⟩
  | (tag, pr) :: rest, stOn, stOff, hB, hM => by
      rw [stageF, stageF]
      by_cases htag : tag = 0
      · rw [if_pos htag, if_pos htag]
        exact stageF_dom recFnOn recFnOff parentShadowView m₀ hm₀ hrecDom hrecOff rest
          stOn stOff hB hM
      · rw [if_neg htag, if_neg htag, hM, shouldCreateUpdate_disabled m₀ hm₀ pr.shadowNode]
        rcases hrOn : stOn.meta.shouldCreateUpdate pr.shadowNode with ⟨mOn1, sCre, updNode⟩
        simp only [hrOn]
        rcases hsOn : recFnOn mOn1 pr.shadowView []
            (sliceChildShadowNodeViewPairs pr.shadowNode) with ⟨mOn2, subOn⟩
        rcases hsOff : recFnOff m₀ pr.shadowView []
            (sliceChildShadowNodeViewPairs pr.shadowNode) with ⟨mOff2, subOff⟩
        simp only [hsOn, hsOff]
        have hsub : DomL subOn subOff := by
          have hd := hrecDom mOn1 pr.shadowView [] (sliceChildShadowNodeViewPairs pr.shadowNode)
          rw [hsOn, hsOff] at hd
          exact hd
        have hmOff : mOff2 = m₀ := by
          have ho := hrecOff pr.shadowView [] (sliceChildShadowNodeViewPairs pr.shadowNode)
          rw [hsOff] at ho
          exact ho
        refine stageF_dom recFnOn recFnOff parentShadowView m₀ hm₀ hrecDom hrecOff rest
          _ _ ?_ hmOff
        simp only [if_pos rfl]
        have h2 := hB.create_cond_push sCre (ShadowViewMutation.CreateMutation pr.shadowView)
        rcases updNode with _ | un
        · exact h2.downward_append hsub
        · exact (h2.update_push_left _ _ rfl).downward_append hsub

/-- The stage-E walk in parallel: branch selection and map evolution are
metadata-independent, so both runs walk identically; Removes and Inserts
coincide, off-side Deletes are a superset, and the on side's extra
Updates keep domination. -/
theorem stageE_dom (recFnOn recFnOff : RecFn) (parentShadowView : ShadowView)
    (oldChildPairs newChildPairs : List ShadowViewNodePair) (staleIndex : Int)
    (m₀ : ReparentingMetadata) (hm₀ : m₀.enabled = false)
    (hrecDom : ∀ (mA : ReparentingMetadata) (p : ShadowView)
      (o n : List ShadowViewNodePair),
      DomL (recFnOn mA p o n).2 ((recFnOff m₀ p o n).2))
    (hrecOff : ∀ (p : ShadowView) (o n : List ShadowViewNodePair),
      (recFnOff m₀ p o n).1 = m₀) :
    ∀ (loopFuel oldIndex newIndex : Nat)
      (remaining inserted : TinyMap ShadowViewNodePair) (stOn stOff : DiffState),
      DomB stOn.buckets stOff.buckets → stOff.meta = m₀ →
      DomB ((stageE recFnOn parentShadowView oldChildPairs newChildPairs staleIndex
            loopFuel oldIndex newIndex remaining inserted stOn).1).buckets
          ((stageE recFnOff parentShadowView oldChildPairs newChildPairs staleIndex
            loopFuel oldIndex newIndex remaining inserted stOff).1).buckets ∧
      ((stageE recFnOff parentShadowView oldChildPairs newChildPairs staleIndex
          loopFuel oldIndex newIndex remaining inserted stOff).1).meta = m₀ ∧
      (stageE recFnOn parentShadowView oldChildPairs newChildPairs staleIndex
          loopFuel oldIndex newIndex remaining inserted stOn).2 =
        (stageE recFnOff parentShadowView oldChildPairs newChildPairs staleIndex
          loopFuel oldIndex newIndex remaining inserted stOff).2
  | 0, oldIndex, newIndex, remaining, inserted, stOn, stOff, hB, hM => by
      simpa [stageE] using ⟨hB, hM⟩
  | loopFuel + 1, oldIndex, newIndex, remaining, inserted, stOn, stOff, hB, hM => by
      rw [stageE, stageE]
      by_cases hout : newIndex < newChildPairs.length ∨ oldIndex < oldChildPairs.length
      · rw [if_pos hout, if_pos hout]
        by_cases h5 : newIndex < newChildPairs.length ∧ oldIndex < oldChildPairs.length ∧
            (newChildPairs.getD newIndex dummyPair).shadowView.tag =
              (oldChildPairs.getD oldIndex dummyPair).shadowView.tag
        · rw [if_pos h5, if_pos h5]
          rcases hfr : remaining.findIdx
              (oldChildPairs.getD oldIndex dummyPair).shadowView.tag with ⟨rem1, foundRem⟩
          simp only [hfr]
          rcases hsOn : recFnOn stOn.meta (oldChildPairs.getD oldIndex dummyPair).shadowView
              (sliceChildShadowNodeViewPairs (oldChildPairs.getD oldIndex dummyPair).shadowNode)
              (sliceChildShadowNodeViewPairs (newChildPairs.getD newIndex dummyPair).shadowNode)
              with ⟨mOn, subOn⟩
          rcases hsOff : recFnOff m₀ (oldChildPairs.getD oldIndex dummyPair).shadowView
              (sliceChildShadowNodeViewPairs (oldChildPairs.getD oldIndex dummyPair).shadowNode)
              (sliceChildShadowNodeViewPairs (newChildPairs.getD newIndex dummyPair).shadowNode)
              with ⟨mOff, subOff⟩
          rw [hM]
          simp only [hsOn, hsOff]
          have hsub : DomL subOn subOff := by
            have hd := hrecDom stOn.meta (oldChildPairs.getD oldIndex dummyPair).shadowView
              (sliceChildShadowNodeViewPairs (oldChildPairs.getD oldIndex dummyPair).shadowNode)
              (sliceChildShadowNodeViewPairs (newChildPairs.getD newIndex dummyPair).shadowNode)
            rw [hsOn, hsOff] at hd
            exact hd
          have hmOff : mOff = m₀ := by
            have ho := hrecOff (oldChildPairs.getD oldIndex dummyPair).shadowView
              (sliceChildShadowNodeViewPairs (oldChildPairs.getD oldIndex dummyPair).shadowNode)
              (sliceChildShadowNodeViewPairs (newChildPairs.getD newIndex dummyPair).shadowNode)
            rw [hsOff] at ho
            exact ho
          exact stageE_dom recFnOn recFnOff parentShadowView oldChildPairs newChildPairs
            staleIndex m₀ hm₀ hrecDom hrecOff loopFuel (oldIndex + 1) (newIndex + 1) _ _ _ _
            ((hB.update_ite_push _ _).downchoice _ hsub) hmOff
        · rw [if_neg h5, if_neg h5]
          by_cases hold : oldIndex < oldChildPairs.length
          · rw [if_pos hold, if_pos hold]
            rcases hfi : inserted.findIdx
                (oldChildPairs.getD oldIndex dummyPair).shadowView.tag with ⟨ins1, foundIns⟩
            simp only [hfi]
            rcases foundIns with _ | i
            · rcases hfr : remaining.findIdx
                  (oldChildPairs.getD oldIndex dummyPair).shadowView.tag with ⟨rem1, foundRem⟩
              simp only [hfr]
              rcases foundRem with _ | j
              · rw [hM, shouldRemoveDeleteUpdate_disabled m₀ hm₀ (-1)
                  (oldChildPairs.getD oldIndex dummyPair).shadowNode (-1)]
                rcases hdOn : stOn.meta.shouldRemoveDeleteUpdate (-1)
                    (oldChildPairs.getD oldIndex dummyPair).shadowNode (-1)
                    with ⟨mOn1, sRem, sDel, newTn⟩
                simp only [hdOn]
                rcases hsOn : recFnOn mOn1 (oldChildPairs.getD oldIndex dummyPair).shadowView
                    (sliceChildShadowNodeViewPairs
                      (oldChildPairs.getD oldIndex dummyPair).shadowNode) []
                    with ⟨mOn2, subOn⟩
                rcases hsOff : recFnOff m₀ (oldChildPairs.getD oldIndex dummyPair).shadowView
                    (sliceChildShadowNodeViewPairs
                      (oldChildPairs.getD oldIndex dummyPair).shadowNode) []
                    with ⟨mOff2, subOff⟩
                simp only [hsOn, hsOff]
                have hsub : DomL subOn subOff := by
                  have hd := hrecDom mOn1 (oldChildPairs.getD oldIndex dummyPair).shadowView
                    (sliceChildShadowNodeViewPairs
                      (oldChildPairs.getD oldIndex dummyPair).shadowNode) []
                  rw [hsOn, hsOff] at hd
                  exact hd
                have hmOff : mOff2 = m₀ := by
                  have ho := hrecOff (oldChildPairs.getD oldIndex dummyPair).shadowView
                    (sliceChildShadowNodeViewPairs
                      (oldChildPairs.getD oldIndex dummyPair).shadowNode) []
                  rw [hsOff] at ho
                  exact ho
                refine stageE_dom recFnOn recFnOff parentShadowView oldChildPairs newChildPairs
                  staleIndex m₀ hm₀ hrecDom hrecOff loopFuel (oldIndex + 1) newIndex _ _ _ _
                  ?_ hmOff
                simp only [if_pos rfl]
                have h2 := (hB.remove_push_both
                    (ShadowViewMutation.RemoveMutation parentShadowView
                      (oldChildPairs.getD oldIndex dummyPair).shadowView
                      (oldIndex : Int))).delete_cond_push sDel
                  (ShadowViewMutation.DeleteMutation
                    (oldChildPairs.getD oldIndex dummyPair).shadowView)
                rcases newTn with _ | nn
                · exact h2.destructive_append hsub
                · exact (h2.update_push_left _ _ rfl).destructive_append hsub
              · rw [hM, markInserted_disabled m₀ hm₀ parentShadowView.tag
                  (newChildPairs.getD newIndex dummyPair).shadowNode (newIndex : Int)]
                exact stageE_dom recFnOn recFnOff parentShadowView oldChildPairs newChildPairs
                  staleIndex m₀ hm₀ hrecDom hrecOff loopFuel oldIndex (newIndex + 1) _ _ _ _
                  (hB.insert_push_both _) rfl
            · rcases hsOn : recFnOn stOn.meta (oldChildPairs.getD oldIndex dummyPair).shadowView
                  (sliceChildShadowNodeViewPairs
                    (oldChildPairs.getD oldIndex dummyPair).shadowNode)
                  (sliceChildShadowNodeViewPairs
                    ((ins1.vector.getD i (0, dummyPair)).2).shadowNode)
                  with ⟨mOn, subOn⟩
              rcases hsOff : recFnOff m₀ (oldChildPairs.getD oldIndex dummyPair).shadowView
                  (sliceChildShadowNodeViewPairs
                    (oldChildPairs.getD oldIndex dummyPair).shadowNode)
                  (sliceChildShadowNodeViewPairs
                    ((ins1.vector.getD i (0, dummyPair)).2).shadowNode)
                  with ⟨mOff, subOff⟩
              rw [hM]
              simp only [hsOn, hsOff]
              have hsub : DomL subOn subOff := by
                have hd := hrecDom stOn.meta (oldChildPairs.getD oldIndex dummyPair).shadowView
                  (sliceChildShadowNodeViewPairs
                    (oldChildPairs.getD oldIndex dummyPair).shadowNode)
                  (sliceChildShadowNodeViewPairs
                    ((ins1.vector.getD i (0, dummyPair)).2).shadowNode)
                rw [hsOn, hsOff] at hd
                exact hd
              have hmOff : mOff = m₀ := by
                have ho := hrecOff (oldChildPairs.getD oldIndex dummyPair).shadowView
                  (sliceChildShadowNodeViewPairs
                    (oldChildPairs.getD oldIndex dummyPair).shadowNode)
                  (sliceChildShadowNodeViewPairs
                    ((ins1.vector.getD i (0, dummyPair)).2).shadowNode)
                rw [hsOff] at ho
                exact ho
              exact stageE_dom recFnOn recFnOff parentShadowView oldChildPairs newChildPairs
                staleIndex m₀ hm₀ hrecDom hrecOff loopFuel (oldIndex + 1) newIndex _ _ _ _
                (((hB.remove_push_both _).update_ite_push _ _).downchoice _ hsub) hmOff
          · rw [if_neg hold, if_neg hold, hM, markInserted_disabled m₀ hm₀ parentShadowView.tag
              (newChildPairs.getD newIndex dummyPair).shadowNode (newIndex : Int)]
            exact stageE_dom recFnOn recFnOff parentShadowView oldChildPairs newChildPairs
              staleIndex m₀ hm₀ hrecDom hrecOff loopFuel oldIndex (newIndex + 1) _ _ _ _
              (hB.insert_push_both _) rfl
      · rw [if_neg hout, if_neg hout]
        exact ⟨hB, hM, rfl⟩

/-- One activation in parallel: with the same parent and child lists,
the off-side activation (disabled metadata `m₀`) dominates the on-side
one and keeps its metadata. -/
theorem calcBody_dom (recFnOn recFnOff : RecFn) (parentShadowView : ShadowView)
    (m₀ : ReparentingMetadata) (hm₀ : m₀.enabled = false)
    (hrecDom : ∀ (mA : ReparentingMetadata) (p : ShadowView)
      (o n : List ShadowViewNodePair),
      DomL (recFnOn mA p o n).2 ((recFnOff m₀ p o n).2))
    (hrecOff : ∀ (p : ShadowView) (o n : List ShadowViewNodePair),
      (recFnOff m₀ p o n).1 = m₀)
    (mA : ReparentingMetadata) (oldIn newIn : List ShadowViewNodePair) :
    DomB (calcBody recFnOn mA parentShadowView oldIn newIn).2
        ((calcBody recFnOff m₀ parentShadowView oldIn newIn).2) ∧
    (calcBody recFnOff m₀ parentShadowView oldIn newIn).1 = m₀ := by
  unfold calcBody
  by_cases hempty : oldIn.isEmpty ∧ newIn.isEmpty
  · rw [if_pos hempty, if_pos hempty]
    exact ⟨DomB.empty_empty, rfl⟩
  · rw [if_neg hempty, if_neg hempty]
    rcases hs1On : stage1 recFnOn parentShadowView (reorderInPlaceIfNeeded oldIn)
        (reorderInPlaceIfNeeded newIn) 0 ⟨mA, Buckets.empty⟩
        with ⟨stOn1, kOn, oldROn, newROn⟩
    rcases hs1Off : stage1 recFnOff parentShadowView (reorderInPlaceIfNeeded oldIn)
        (reorderInPlaceIfNeeded newIn) 0 ⟨m₀, Buckets.empty⟩
        with ⟨stOff1, kOff, oldROff, newROff⟩
    obtain ⟨hB1, hM1, hCtl⟩ := stage1_dom recFnOn recFnOff parentShadowView m₀ hrecDom
      hrecOff (reorderInPlaceIfNeeded oldIn) (reorderInPlaceIfNeeded newIn) 0
      ⟨mA, Buckets.empty⟩ ⟨m₀, Buckets.empty⟩ DomB.empty_empty rfl
    rw [hs1On, hs1Off] at hB1
    rw [hs1Off] at hM1
    rw [hs1On, hs1Off] at hCtl
    obtain ⟨hk, hro, hrn⟩ : kOn = kOff ∧ oldROn = oldROff ∧ newROn = newROff := by
      simpa [Prod.ext_iff] using hCtl
    subst hk
    subst hro
    subst hrn
    simp only [hs1On, hs1Off]
    by_cases hnr : newROn.isEmpty
    · rw [if_pos hnr, if_pos hnr]
      exact stage2_dom recFnOn recFnOff parentShadowView m₀ hm₀ hrecDom hrecOff oldROn kOn
        stOn1 stOff1 hB1 hM1
    · rw [if_neg hnr, if_neg hnr]
      by_cases hor : oldROn.isEmpty
      · rw [if_pos hor, if_pos hor]
        exact stage3_dom recFnOn recFnOff parentShadowView m₀ hm₀ hrecDom hrecOff newROn kOn
          stOn1 stOff1 hB1 hM1
      · rw [if_neg hor, if_neg hor]
        rcases hEOn : stageE recFnOn parentShadowView (reorderInPlaceIfNeeded oldIn)
            (reorderInPlaceIfNeeded newIn) ((reorderInPlaceIfNeeded newIn).length : Int)
            ((reorderInPlaceIfNeeded oldIn).length +
              (reorderInPlaceIfNeeded newIn).length + 1) kOn kOn
            (newROn.foldl (fun m p => m.insert p.shadowView.tag p)
              (TinyMap.empty : TinyMap ShadowViewNodePair))
            (TinyMap.empty : TinyMap ShadowViewNodePair) stOn1 with ⟨stOn2, insOn⟩
        rcases hEOff : stageE recFnOff parentShadowView (reorderInPlaceIfNeeded oldIn)
            (reorderInPlaceIfNeeded newIn) ((reorderInPlaceIfNeeded newIn).length : Int)
            ((reorderInPlaceIfNeeded oldIn).length +
              (reorderInPlaceIfNeeded newIn).length + 1) kOn kOn
            (newROn.foldl (fun m p => m.insert p.shadowView.tag p)
              (TinyMap.empty : TinyMap ShadowViewNodePair))
            (TinyMap.empty : TinyMap ShadowViewNodePair) stOff1 with ⟨stOff2, insOff⟩
        obtain ⟨hB2, hM2, hIns⟩ := stageE_dom recFnOn recFnOff parentShadowView
          (reorderInPlaceIfNeeded oldIn) (reorderInPlaceIfNeeded newIn)
          ((reorderInPlaceIfNeeded newIn).length : Int) m₀ hm₀ hrecDom hrecOff
          ((reorderInPlaceIfNeeded oldIn).length +
            (reorderInPlaceIfNeeded newIn).length + 1) kOn kOn
          (newROn.foldl (fun m p => m.insert p.shadowView.tag p)
            (TinyMap.empty : TinyMap ShadowViewNodePair))
          (TinyMap.empty : TinyMap ShadowViewNodePair) stOn1 stOff1 hB1 hM1
        rw [hEOn, hEOff] at hB2
        rw [hEOff] at hM2
        rw [hEOn, hEOff] at hIns
        have hIns2 : insOn = insOff := hIns
        simp only [hEOn, hEOff]
        rw [hIns2]
        exact stageF_dom recFnOn recFnOff parentShadowView m₀ hm₀ hrecDom hrecOff
          insOff.iterList stOn2 stOff2 hB2 hM2

/-- The recursive differ in parallel at every fuel: the disabled run's
buckets dominate the enabled run's (started from any metadata), and the
disabled run's metadata never changes. -/
theorem calcKernel_dom (m₀ : ReparentingMetadata) (hm₀ : m₀.enabled = false) :
    ∀ (fuel : Nat) (mA : ReparentingMetadata) (p : ShadowView)
      (o n : List ShadowViewNodePair),
      DomB (calcKernel fuel mA p o n).2 ((calcKernel fuel m₀ p o n).2) ∧
      (calcKernel fuel m₀ p o n).1 = m₀
  | 0, _, _, _, _ => ⟨DomB.empty_empty, rfl⟩
  | fuel + 1, mA, p, o, n => by
      rw [calcKernel, calcKernel]
      refine calcBody_dom _ _ p m₀ hm₀ ?_ ?_ mA o n
      · intro mB p' o' n'
        exact ((calcKernel_dom m₀ hm₀ fuel mB p' o' n').1).concat
      · intro p' o' n'
        exact (calcKernel_dom m₀ hm₀ fuel m₀ p' o' n').2

/-- C8 amended: for every pair of input trees, every mutation type other
than Update that is present in the list produced with
`enableReparentingDetection = true` is also present in the list produced
with the flag off; Update is the sole exception, since the enabled run
may synthesize an Update for a reparented node whose view changed while
the disabled run tears the node down and rebuilds it. -/
theorem c8_amended_superset_except_update (oldRoot newRoot : ShadowNode)
    (T : MutationType) (hT : T ≠ .update)
    (h : ∃ mu ∈ calculateShadowViewMutations oldRoot newRoot true, mu.mutationType = T) :
    ∃ mu ∈ calculateShadowViewMutations oldRoot newRoot false, mu.mutationType = T := by
  unfold calculateShadowViewMutations at h ⊢
  rcases hkOn : calcKernel (oldRoot.fuel + newRoot.fuel + 1)
      (ReparentingMetadata.mkMeta true) (shadowViewOf oldRoot)
      (sliceChildShadowNodeViewPairs oldRoot)
      (sliceChildShadowNodeViewPairs newRoot) with ⟨mOn, bOn⟩
  rcases hkOff : calcKernel (oldRoot.fuel + newRoot.fuel + 1)
      (ReparentingMetadata.mkMeta false) (shadowViewOf oldRoot)
      (sliceChildShadowNodeViewPairs oldRoot)
      (sliceChildShadowNodeViewPairs newRoot) with ⟨mOff, bOff⟩
  simp only [hkOn] at h
  simp only [hkOff]
  rw [if_neg (by simp)]
  have hdomB := (calcKernel_dom (ReparentingMetadata.mkMeta false) rfl
    (oldRoot.fuel + newRoot.fuel + 1) (ReparentingMetadata.mkMeta true)
    (shadowViewOf oldRoot) (sliceChildShadowNodeViewPairs oldRoot)
    (sliceChildShadowNodeViewPairs newRoot)).1
  rw [hkOn, hkOff] at hdomB
  have hdom : DomL
      ((if shadowViewOf oldRoot ≠ shadowViewOf newRoot then
          [ShadowViewMutation.UpdateMutation defaultShadowView (shadowViewOf oldRoot)
            (shadowViewOf newRoot) (-1)]
        else []) ++ bOn.concat)
      ((if shadowViewOf oldRoot ≠ shadowViewOf newRoot then
          [ShadowViewMutation.UpdateMutation defaultShadowView (shadowViewOf oldRoot)
            (shadowViewOf newRoot) (-1)]
        else []) ++ bOff.concat) :=
    DomL.append (DomL.refl _) hdomB.concat
  split at h
  · obtain ⟨mu, hmu, hty⟩ := h
    exact hdom T hT ⟨mu, pruneMutations_subset _ _ mu hmu, hty⟩
  · exact hdom T hT h

/-- Witness for the amended C8 at the concrete C8 trees: the Remove
present in the enabled run is also present in the disabled run. -/
theorem c8_amended_superset_except_update_witness :
    ∃ mu ∈ calculateShadowViewMutations c8old c8new false, mu.mutationType = .remove :=
  c8_amended_superset_except_update c8old c8new .remove (by decide) (by decide)

/-! ## C2: bucket concatenation order -/

/-- The §4.3-G bucket category codes, in concatenation order:
destructive-downward 0, update 1, remove 2, delete 3, create 4,
downward 5, insert 6.  `annotateBuckets` lists an activation's emitted
mutations in the concatenation order, each labelled with its bucket
category. -/
def annotateBuckets (b : Buckets) : List (Nat × ShadowViewMutation) :=
  b.destructiveM.map (fun m => (0, m)) ++ b.updateM.map (fun m => (1, m)) ++
    (b.removeM.reverse).map (fun m => (2, m)) ++ b.deleteM.map (fun m => (3, m)) ++
    b.createM.map (fun m => (4, m)) ++ b.downwardM.map (fun m => (5, m)) ++
    b.insertM.map (fun m => (6, m))

/-- The label of every entry in an annotated segment is its segment
constant. -/
theorem fst_mem_label_map {α : Type} (l : List α) (c : Nat)
    (x : Nat × α) (h : x ∈ l.map (fun m => (c, m))) : x.1 = c := by
  rcases List.mem_map.mp h with ⟨z, -, rfl⟩
  rfl

/-- Annotated segments are internally ordered by their labels. -/
theorem pairwise_label_map {α : Type} (l : List α) (c : Nat) :
    ((l.map (fun m => (c, m))).Pairwise (fun a b : Nat × α => a.1 ≤ b.1)) := by
  induction l with
  | nil => exact List.Pairwise.nil
  | cons x xs ih =>
      refine List.Pairwise.cons ?_ ih
      intro y hy
      rw [fst_mem_label_map xs c y hy]

/-- The category labels of an annotated bucket list are sorted. -/
theorem annotateBuckets_fst_sorted (b : Buckets) :
    ((annotateBuckets b).map Prod.fst).Pairwise (· ≤ ·) := by
  rw [List.pairwise_map]
  unfold annotateBuckets
  have step : ∀ (xs : List (Nat × ShadowViewMutation)) (c : Nat)
      (l : List ShadowViewMutation) (d : Nat),
      (∀ x ∈ xs, x.1 ≤ c) → c ≤ d →
      xs.Pairwise (fun a b : Nat × ShadowViewMutation => a.1 ≤ b.1) →
      ((xs ++ l.map (fun m => (d, m))).Pairwise
          (fun a b : Nat × ShadowViewMutation => a.1 ≤ b.1) ∧
        ∀ x ∈ xs ++ l.map (fun m => (d, m)), x.1 ≤ d) := by
    intro xs c l d hx hcd hxs
    constructor
    · refine List.pairwise_append.mpr ⟨hxs, pairwise_label_map l d, ?_⟩
      intro a ha bb hb
      rw [fst_mem_label_map l d bb hb]
      exact Nat.le_trans (hx a ha) hcd
    · intro x hx'
      rcases List.mem_append.mp hx' with h1 | h2
      · exact Nat.le_trans (hx x h1) hcd
      · rw [fst_mem_label_map l d x h2]
  have s0 : ((b.destructiveM.map (fun m => (0, m))).Pairwise
      (fun a b : Nat × ShadowViewMutation => a.1 ≤ b.1)) ∧
      ∀ x ∈ b.destructiveM.map (fun m => (0, m)), x.1 ≤ 0 :=
    ⟨pairwise_label_map _ 0, fun x hx => Nat.le_of_eq (fst_mem_label_map _ 0 x hx)⟩
  have s1 := step _ 0 b.updateM 1 s0.2 (by omega) s0.1
  have s2 := step _ 1 b.removeM.reverse 2 s1.2 (by omega) s1.1
  have s3 := step _ 2 b.deleteM 3 s2.2 (by omega) s2.1
  have s4 := step _ 3 b.createM 4 s3.2 (by omega) s3.1
  have s5 := step _ 4 b.downwardM 5 s4.2 (by omega) s4.1
  have s6 := step _ 5 b.insertM 6 s5.2 (by omega) s5.1
  exact s6.1

/-- C2: within every activation of the recursive differ (any fuel,
metadata, parent and child lists), the mutations appended to the
caller's list are exactly the annotated bucket sequence with the labels
erased — destructive-downward first, then update, then remove in
reverse, then delete, then create, then downward, then insert — and the
bucket-category labels of that sequence are monotonically
non-decreasing, so any two mutations emitted at the same recursion level
obey the §4.3-G category ordering. -/
theorem c2_bucket_concatenation_order (fuel : Nat) (meta : ReparentingMetadata)
    (parentShadowView : ShadowView) (oldChildPairs newChildPairs : List ShadowViewNodePair) :
    ((annotateBuckets (calcKernel fuel meta parentShadowView oldChildPairs
        newChildPairs).2).map Prod.snd =
      ((calcKernel fuel meta parentShadowView oldChildPairs newChildPairs).2).concat) ∧
    ((annotateBuckets (calcKernel fuel meta parentShadowView oldChildPairs
        newChildPairs).2).map Prod.fst).Pairwise (· ≤ ·) := by
  constructor
  · simp [annotateBuckets, Buckets.concat]
  · exact annotateBuckets_fst_sorted _

/-! ## C3: remove ordering -/

/-- Loop invariant for the Remove bucket of one activation: the emitted
indices are strictly increasing, all below the current cursor `bound`,
and every entry is a Remove under this activation's parent view. -/
def RemoveInv (parentShadowView : ShadowView) (bound : Int)
    (l : List ShadowViewMutation) : Prop :=
  ((l.map ShadowViewMutation.index).Pairwise (· < ·)) ∧
  ∀ mu ∈ l, mu.index < bound ∧ mu.parentShadowView = parentShadowView ∧
    mu.mutationType = .remove

/-- An empty Remove bucket satisfies the invariant at any bound. -/
theorem RemoveInv.nil (parentShadowView : ShadowView) (bound : Int) :
    RemoveInv parentShadowView bound [] :=
  ⟨List.Pairwise.nil, fun mu hmu => absurd hmu (List.not_mem_nil mu)⟩

/-- The invariant is monotone in the bound. -/
theorem RemoveInv.mono {parentShadowView : ShadowView} {bound bound' : Int}
    {l : List ShadowViewMutation} (h : RemoveInv parentShadowView bound l)
    (hb : bound ≤ bound') : RemoveInv parentShadowView bound' l := by
  obtain ⟨h1, h2⟩ := h
  refine ⟨h1, fun mu hmu => ?_⟩
  obtain ⟨ha, hb', hc⟩ := h2 mu hmu
  exact ⟨lt_of_lt_of_le ha hb, hb', hc⟩

/-- Pushing a Remove at the current bound advances the invariant. -/
theorem RemoveInv.push {parentShadowView : ShadowView} {bound : Int}
    {l : List ShadowViewMutation} (h : RemoveInv parentShadowView bound l)
    (childShadowView : ShadowView) :
    RemoveInv parentShadowView (bound + 1)
      (l ++ [ShadowViewMutation.RemoveMutation parentShadowView childShadowView bound]) := by
  obtain ⟨h1, h2⟩ := h
  constructor
  · rw [List.map_append]
    refine List.pairwise_append.mpr ⟨h1, by simp, ?_⟩
    intro a ha bb hb
    simp only [List.map_cons, List.map_nil, List.mem_singleton] at hb
    rcases List.mem_map.mp ha with ⟨mu, hmu, rfl⟩
    rw [hb]
    exact (h2 mu hmu).1
  · intro mu hmu
    rcases List.mem_append.mp hmu with hm | hm
    · obtain ⟨ha, hb', hc⟩ := h2 mu hm
      exact ⟨by omega, hb', hc⟩
    · simp only [List.mem_singleton] at hm
      subst hm
      refine ⟨?_, rfl, rfl⟩
      show bound < bound + 1
      omega

/-- Stage 1 never touches the Remove bucket. -/
theorem stage1_removeM (recFn : RecFn) (parentShadowView : ShadowView) :
    ∀ (olds news : List ShadowViewNodePair) (idx : Nat) (st : DiffState),
      ((stage1 recFn parentShadowView olds news idx st).1).buckets.removeM =
        st.buckets.removeM
  | [], news, idx, st => by simp [stage1]
  | olds@(_ :: _), [], idx, st => by simp [stage1]
  | o :: olds, n :: news, idx, st => by
      rw [stage1]
      by_cases htag : o.shadowView.tag ≠ n.shadowView.tag
      · rw [if_pos htag]
      · rw [if_neg htag]
        rcases hr : recFn
            (st.meta) o.shadowView (sliceChildShadowNodeViewPairs o.shadowNode)
            (sliceChildShadowNodeViewPairs n.shadowNode) with ⟨m', sub⟩
        simp only [hr]
        rw [stage1_removeM recFn parentShadowView olds news (idx + 1) _]
        simp [apply_ite Buckets.removeM]

/-- Stage 3 never touches the Remove bucket. -/
theorem stage3_removeM (recFn : RecFn) (parentShadowView : ShadowView) :
    ∀ (news : List ShadowViewNodePair) (idx : Nat) (st : DiffState),
      ((stage3 recFn parentShadowView news idx st)).buckets.removeM =
        st.buckets.removeM
  | [], idx, st => by simp [stage3]
  | n :: news, idx, st => by
      rw [stage3]
      rcases hr : st.meta.shouldCreateInsertUpdate parentShadowView.tag
          n.shadowNode (idx : Int) with ⟨m1, shouldInsert, shouldCreate, oldTn⟩
      simp only [hr]
      rcases hr2 : recFn m1 n.shadowView []
          (sliceChildShadowNodeViewPairs n.shadowNode) with ⟨m2, sub⟩
      simp only [hr2]
      rw [stage3_removeM recFn parentShadowView news (idx + 1) _]
      rcases oldTn with _ | nn <;> simp [apply_ite Buckets.removeM]

/-- Stage F never touches the Remove bucket. -/
theorem stageF_removeM (recFn : RecFn) (parentShadowView : ShadowView) :
    ∀ (entries : List (Tag × ShadowViewNodePair)) (st : DiffState),
      ((stageF recFn parentShadowView entries st)).buckets.removeM =
        st.buckets.removeM
  | [], st => by simp [stageF]
  | (tag, pr) :: rest, st => by
      rw [stageF]
      by_cases htag : tag = 0
      · rw [if_pos htag]
        exact stageF_removeM recFn parentShadowView rest st
      · rw [if_neg htag]
        rcases hr : st.meta.shouldCreateUpdate pr.shadowNode with ⟨m1, shouldCreate, updNode⟩
        simp only [hr]
        rcases hr2 : recFn m1 pr.shadowView []
            (sliceChildShadowNodeViewPairs pr.shadowNode) with ⟨m2, sub⟩
        simp only [hr2]
        rw [stageF_removeM recFn parentShadowView rest _]
        rcases updNode with _ | un <;> simp [apply_ite Buckets.removeM]

/-- Stage 2 emits Removes at strictly increasing indices below its
running cursor. -/
theorem stage2_remove_inv (recFn : RecFn) (parentShadowView : ShadowView) :
    ∀ (olds : List ShadowViewNodePair) (idx : Nat) (st : DiffState),
      RemoveInv parentShadowView (idx : Int) st.buckets.removeM →
      ∃ bound : Int,
        RemoveInv parentShadowView bound
          ((stage2 recFn parentShadowView olds idx st).buckets.removeM)
  | [], idx, st, h => ⟨(idx : Int), by simpa [stage2] using h⟩
  | o :: olds, idx, st, h => by
      rw [stage2]
      rcases hr : st.meta.shouldRemoveDeleteUpdate parentShadowView.tag
          o.shadowNode (idx : Int) with ⟨m1, shouldRemove, shouldDelete, newTn⟩
      simp only [hr]
      rcases hr2 : recFn m1 o.shadowView
          (sliceChildShadowNodeViewPairs o.shadowNode) [] with ⟨m2, sub⟩
      simp only [hr2]
      refine stage2_remove_inv recFn parentShadowView olds (idx + 1) _ ?_
      have hpush : RemoveInv parentShadowView ((idx : Int) + 1)
          (if shouldRemove = true then
            st.buckets.removeM ++
              [ShadowViewMutation.RemoveMutation parentShadowView o.shadowView (idx : Int)]
          else st.buckets.removeM) := by
        split
        · exact h.push o.shadowView
        · exact h.mono (by omega)
      have hcast : ((idx + 1 : Nat) : Int) = (idx : Int) + 1 := by omega
      rw [hcast]
      rcases newTn with _ | nn <;>
        simpa [apply_ite Buckets.removeM] using hpush

/-- The stage-E walk emits Removes at strictly increasing old-cursor
positions. -/
theorem stageE_remove_inv (recFn : RecFn) (parentShadowView : ShadowView)
    (oldChildPairs newChildPairs : List ShadowViewNodePair) (staleIndex : Int) :
    ∀ (loopFuel oldIndex newIndex : Nat) (remaining inserted : TinyMap ShadowViewNodePair)
      (st : DiffState),
      RemoveInv parentShadowView (oldIndex : Int) st.buckets.removeM →
      ∃ bound : Int,
        RemoveInv parentShadowView bound
          ((stageE recFn parentShadowView oldChildPairs newChildPairs staleIndex
              loopFuel oldIndex newIndex remaining inserted st).1).buckets.removeM
  | 0, oldIndex, _, _, inserted, st, h => ⟨(oldIndex : Int), by simpa [stageE] using h⟩
  | loopFuel + 1, oldIndex, newIndex, remaining, inserted, st, h => by
      rw [stageE]
      by_cases hout : newIndex < newChildPairs.length ∨ oldIndex < oldChildPairs.length
      · rw [if_pos hout]
        by_cases h5 : newIndex < newChildPairs.length ∧ oldIndex < oldChildPairs.length ∧
            (newChildPairs.getD newIndex dummyPair).shadowView.tag =
              (oldChildPairs.getD oldIndex dummyPair).shadowView.tag
        · rw [if_pos h5]
          rcases hfr : remaining.findIdx
              (oldChildPairs.getD oldIndex dummyPair).shadowView.tag with ⟨rem1, foundRem⟩
          simp only [hfr]
          rcases hrec : recFn st.meta (oldChildPairs.getD oldIndex dummyPair).shadowView
              (sliceChildShadowNodeViewPairs (oldChildPairs.getD oldIndex dummyPair).shadowNode)
              (sliceChildShadowNodeViewPairs (newChildPairs.getD newIndex dummyPair).shadowNode)
              with ⟨meta', sub⟩
          simp only [hrec]
          refine stageE_remove_inv recFn parentShadowView oldChildPairs newChildPairs
            staleIndex loopFuel (oldIndex + 1) (newIndex + 1) _ inserted _ ?_
          simp only [apply_ite Buckets.removeM]
          simp only [ite_self]
          exact h.mono (by omega)
        · rw [if_neg h5]
          by_cases hold : oldIndex < oldChildPairs.length
          · rw [if_pos hold]
            rcases hfi : inserted.findIdx
                (oldChildPairs.getD oldIndex dummyPair).shadowView.tag with ⟨ins1, foundIns⟩
            simp only [hfi]
            rcases foundIns with _ | i
            · rcases hfr : remaining.findIdx
                  (oldChildPairs.getD oldIndex dummyPair).shadowView.tag with ⟨rem1, foundRem⟩
              simp only [hfr]
              rcases foundRem with _ | j
              · rcases hmeta : st.meta.shouldRemoveDeleteUpdate (-1)
                    (oldChildPairs.getD oldIndex dummyPair).shadowNode (-1)
                    with ⟨meta1, shouldRemove, shouldDelete, newTn⟩
                simp only [hmeta]
                rcases hrec : recFn meta1 (oldChildPairs.getD oldIndex dummyPair).shadowView
                    (sliceChildShadowNodeViewPairs
                      (oldChildPairs.getD oldIndex dummyPair).shadowNode) []
                    with ⟨meta2, sub⟩
                simp only [hrec]
                refine stageE_remove_inv recFn parentShadowView oldChildPairs newChildPairs
                  staleIndex loopFuel (oldIndex + 1) newIndex _ _ _ ?_
                simp only [apply_ite Buckets.removeM]
                simp only [ite_self]
                have hcast : ((oldIndex + 1 : Nat) : Int) = (oldIndex : Int) + 1 := by
                  omega
                rw [hcast]
                rcases newTn with _ | nn <;>
                · simp only [apply_ite Buckets.removeM, ite_self]
                  exact h.push (oldChildPairs.getD oldIndex dummyPair).shadowView
              · refine stageE_remove_inv recFn parentShadowView oldChildPairs newChildPairs
                  staleIndex loopFuel oldIndex (newIndex + 1) _ _ _ ?_
                simpa using h
            · rcases hrec : recFn st.meta (oldChildPairs.getD oldIndex dummyPair).shadowView
                  (sliceChildShadowNodeViewPairs
                    (oldChildPairs.getD oldIndex dummyPair).shadowNode)
                  (sliceChildShadowNodeViewPairs
                    ((ins1.vector.getD i (0, dummyPair)).2).shadowNode)
                  with ⟨meta', sub⟩
              simp only [hrec]
              refine stageE_remove_inv recFn parentShadowView oldChildPairs newChildPairs
                staleIndex loopFuel (oldIndex + 1) newIndex _ _ _ ?_
              simp only [apply_ite Buckets.removeM]
              simp only [ite_self]
              have hcast : ((oldIndex + 1 : Nat) : Int) = (oldIndex : Int) + 1 := by
                omega
              rw [hcast]
              exact h.push (oldChildPairs.getD oldIndex dummyPair).shadowView
          · rw [if_neg hold]
            refine stageE_remove_inv recFn parentShadowView oldChildPairs newChildPairs
              staleIndex loopFuel oldIndex (newIndex + 1) _ _ _ ?_
            simpa using h
      · rw [if_neg hout]
        exact ⟨(oldIndex : Int), h⟩

/-- The Remove bucket of one activation carries strictly increasing
indices, all under the activation's parent. -/
theorem calcBody_remove_inv (recFn : RecFn) (meta : ReparentingMetadata)
    (parentShadowView : ShadowView)
    (oldChildPairsIn newChildPairsIn : List ShadowViewNodePair) :
    ∃ bound : Int,
      RemoveInv parentShadowView bound
        ((calcBody recFn meta parentShadowView oldChildPairsIn newChildPairsIn).2.removeM) := by
  unfold calcBody
  by_cases hempty : oldChildPairsIn.isEmpty ∧ newChildPairsIn.isEmpty
  · rw [if_pos hempty]
    exact ⟨0, RemoveInv.nil _ _⟩
  · rw [if_neg hempty]
    rcases hs1 : stage1 recFn parentShadowView (reorderInPlaceIfNeeded oldChildPairsIn)
        (reorderInPlaceIfNeeded newChildPairsIn) 0 ⟨meta, Buckets.empty⟩
        with ⟨st1, k, oldRest, newRest⟩
    simp only [hs1]
    have hrem1 : st1.buckets.removeM = [] := by
      have hh := stage1_removeM recFn parentShadowView (reorderInPlaceIfNeeded oldChildPairsIn)
        (reorderInPlaceIfNeeded newChildPairsIn) 0 ⟨meta, Buckets.empty⟩
      rw [hs1] at hh
      simpa using hh
    by_cases hnr : newRest.isEmpty
    · rw [if_pos hnr]
      exact stage2_remove_inv recFn parentShadowView oldRest k st1
        (by rw [hrem1]; exact RemoveInv.nil _ _)
    · rw [if_neg hnr]
      by_cases hor : oldRest.isEmpty
      · rw [if_pos hor]
        refine ⟨0, ?_⟩
        rw [stage3_removeM recFn parentShadowView newRest k st1, hrem1]
        exact RemoveInv.nil _ _
      · rw [if_neg hor]
        obtain ⟨bound, hb⟩ := stageE_remove_inv recFn parentShadowView
          (reorderInPlaceIfNeeded oldChildPairsIn) (reorderInPlaceIfNeeded newChildPairsIn)
          ((reorderInPlaceIfNeeded newChildPairsIn).length : Int)
          ((reorderInPlaceIfNeeded oldChildPairsIn).length +
            (reorderInPlaceIfNeeded newChildPairsIn).length + 1) k k
          (newRest.foldl (fun m p => m.insert p.shadowView.tag p)
            (TinyMap.empty : TinyMap ShadowViewNodePair))
          (TinyMap.empty : TinyMap ShadowViewNodePair) st1
          (by rw [hrem1]; exact RemoveInv.nil _ _)
        refine ⟨bound, ?_⟩
        rw [stageF_removeM recFn parentShadowView _ _]
        exact hb

/-- C3: the Remove mutations emitted at a single recursion level (one
activation of the recursive differ, at any fuel, metadata, parent and
child lists) all carry this activation's parent view, and in the
concatenated output — where the Remove bucket appears reversed — their
indices are strictly decreasing.  The final pruning pass only drops
mutations, so the property persists in the returned list. -/
theorem c3_remove_reverse_ordering (fuel : Nat) (meta : ReparentingMetadata)
    (parentShadowView : ShadowView) (oldChildPairs newChildPairs : List ShadowViewNodePair) :
    ((((calcKernel fuel meta parentShadowView oldChildPairs
        newChildPairs).2.removeM.reverse).map ShadowViewMutation.index).Pairwise (· > ·)) ∧
    ∀ mu ∈ (calcKernel fuel meta parentShadowView oldChildPairs newChildPairs).2.removeM,
      mu.parentShadowView = parentShadowView ∧ mu.mutationType = .remove := by
  have hinv : ∃ bound : Int, RemoveInv parentShadowView bound
      ((calcKernel fuel meta parentShadowView oldChildPairs newChildPairs).2.removeM) := by
    cases fuel with
    | zero => exact ⟨0, RemoveInv.nil _ _⟩
    | succ fuel =>
        rw [calcKernel]
        exact calcBody_remove_inv _ meta parentShadowView _ _
  obtain ⟨bound, h1, h2⟩ := hinv
  constructor
  · rw [List.map_reverse, List.pairwise_reverse]
    exact h1
  · intro mu hmu
    exact ⟨(h2 mu hmu).2.1, (h2 mu hmu).2.2⟩

/-- Witness for the amended C5 at a concrete state: two entries with the
second erased mid-vector (`numErased = 1 ≠ 0 = erasedAtFront`, and
`1 ≥ 2 / 2`), so `find` compacts; and the same state is also compacted
by `begin`. -/
theorem c5_amended_compaction_policy_witness :
    (((((TinyMap.empty : TinyMap Nat).insert 1 10).insert 3 30).findIdx 3).1.eraseIdx 1).Inv ∧
    ((((((TinyMap.empty : TinyMap Nat).insert 1 10).insert 3 30).findIdx 3).1.eraseIdx
        1).findIdx 1).1.numErased = 0 := by
  refine ⟨by decide, ?_⟩
  exact (c5_amended_compaction_policy Nat
    (((((TinyMap.empty : TinyMap Nat).insert 1 10).insert 3 30).findIdx 3).1.eraseIdx 1)
    1 (by decide)).1 (by decide) |>.2.1

end Differ
